import Mathlib

/-!
Verification of the node-local cluster reconciliation engine
(`arangod/Cluster/Maintenance.cpp`).  The repository snapshot contains two
revisions of this translation unit:

* `src/unnamed/part_001` — the newer revision, with the resignation branch,
  `DropIndex` emission, the backward pass of `reportInCurrent`, and the
  guarded `assembleLocalCollectioInfo`.  Its functions are embedded below at
  top level under their source names.
* `src/arangod/Cluster/Maintenance.cpp` — the older revision, which contains
  `handleChange`, the ungated `assembleLocalCollectioInfo` and the simpler
  `handleLocalShard`.  Its functions are embedded in namespace `OldRev`.

Velocypack slices are modelled by the inductive `VValue`.  Velocypack
operations that throw on mistyped input (`copyString` on a non-string,
iteration over a non-object, indexing a non-array) are modelled totally with
neutral defaults; in the source every such exception is caught at the phase
boundary (`phaseOne`/`phaseTwo` wrap their bodies in try/catch), matching the
spec's "missing substructure ⇒ skip" policy.  The null-pointer dereference of
the older `assembleLocalCollectioInfo` is *not* a C++ exception and is
modelled as an `Except.error` outcome that no catch block absorbs.
-/

/-- Model of a velocypack value (JSON-like document tree). -/
inductive VValue where
  | vnull : VValue
  | vbool : Bool → VValue
  | vnum : Int → VValue
  | vstr : String → VValue
  | varr : List VValue → VValue
  | vobj : List (String × VValue) → VValue

mutual

/-- Structural (binary) equality of values, as `VPackSlice::operator==`. -/
def veq : VValue → VValue → Bool
  | .vnull, .vnull => true
  | .vbool a, .vbool b => a == b
  | .vnum a, .vnum b => a == b
  | .vstr a, .vstr b => a == b
  | .varr a, .varr b => veqList a b
  | .vobj a, .vobj b => veqFields a b
  | _, _ => false

def veqList : List VValue → List VValue → Bool
  | [], [] => true
  | a :: as, b :: bs => veq a b && veqList as bs
  | _, _ => false

def veqFields : List (String × VValue) → List (String × VValue) → Bool
  | [], [] => true
  | (k, v) :: xs, (l, w) :: ys => k == l && veq v w && veqFields xs ys
  | _, _ => false

end

mutual

theorem veq_iff : ∀ a b : VValue, veq a b = true ↔ a = b
  | .vnull, .vnull => by simp [veq]
  | .vnull, .vbool _ | .vnull, .vnum _ | .vnull, .vstr _ | .vnull, .varr _
  | .vnull, .vobj _ => by simp [veq]
  | .vbool a, b => by
    cases b <;> simp [veq]
  | .vnum a, b => by
    cases b <;> simp [veq]
  | .vstr a, b => by
    cases b <;> simp [veq]
  | .varr a, .vnull => by simp [veq]
  | .varr a, .vbool _ => by simp [veq]
  | .varr a, .vnum _ => by simp [veq]
  | .varr a, .vstr _ => by simp [veq]
  | .varr a, .varr bs => by simp [veq, veqList_iff a bs]
  | .varr a, .vobj _ => by simp [veq]
  | .vobj a, .vnull => by simp [veq]
  | .vobj a, .vbool _ => by simp [veq]
  | .vobj a, .vnum _ => by simp [veq]
  | .vobj a, .vstr _ => by simp [veq]
  | .vobj a, .varr _ => by simp [veq]
  | .vobj a, .vobj bs => by simp [veq, veqFields_iff a bs]

theorem veqList_iff : ∀ a b : List VValue, veqList a b = true ↔ a = b
  | [], [] => by simp [veqList]
  | [], _ :: _ => by simp [veqList]
  | _ :: _, [] => by simp [veqList]
  | a :: as, b :: bs => by
    simp [veqList, veq_iff a b, veqList_iff as bs]

theorem veqFields_iff : ∀ a b : List (String × VValue), veqFields a b = true ↔ a = b
  | [], [] => by simp [veqFields]
  | [], _ :: _ => by simp [veqFields]
  | (k, v) :: xs, [] => by simp [veqFields]
  | (k, v) :: xs, (l, w) :: ys => by
    simp [veqFields, veq_iff v w, veqFields_iff xs ys, Prod.ext_iff, and_assoc]

end

instance : DecidableEq VValue := fun a b =>
  decidable_of_iff (veq a b = true) (veq_iff a b)

namespace VValue

/-- First field of an object field list with the given key (velocypack
`Slice::get` on objects; builders in this code never produce duplicate keys). -/
def lookupF : List (String × VValue) → String → Option VValue
  | [], _ => none
  | (k, v) :: rest, key => if k = key then some v else lookupF rest key

/-- `Slice::get(key)`: `none` models the None slice. -/
def getKey : VValue → String → Option VValue
  | .vobj fs, k => lookupF fs k
  | _, _ => none

/-- `Slice::hasKey(key)` (false on non-objects). -/
def hasKeyB (v : VValue) (k : String) : Bool := (getKey v k).isSome

/-- `Slice::get(path)` along a key path. -/
def getPath : VValue → List String → Option VValue
  | v, [] => some v
  | v, k :: ks =>
    match getKey v k with
    | some w => getPath w ks
    | none => none

/-- `Slice::hasKey(path)`. -/
def hasPath (v : VValue) (ks : List String) : Bool := (getPath v ks).isSome

/-- `Slice::get(key)` with the None slice read back as null. -/
def getD (v : VValue) (k : String) : VValue := (getKey v k).getD .vnull

def getPathD (v : VValue) (ks : List String) : VValue := (getPath v ks).getD .vnull

/-- Fields of an object (`VPackObjectIterator`); empty on non-objects. -/
def objFields : VValue → List (String × VValue)
  | .vobj fs => fs
  | _ => []

/-- Elements of an array (`VPackArrayIterator`); empty on non-arrays. -/
def arrElems : VValue → List VValue
  | .varr xs => xs
  | _ => []

def isArr : VValue → Bool
  | .varr _ => true
  | _ => false

/-- `Slice::copyString`, total: non-strings give "" (the source would throw,
caught at the phase boundary). -/
def asStr : VValue → String
  | .vstr s => s
  | _ => ""

/-- `slice.get(key).copyString()`, total. -/
def getStrD (v : VValue) (k : String) : String := asStr (getD v k)

/-- `slice[0]` of an array, total (null on empty / non-array). -/
def firstElemD (v : VValue) : VValue := (arrElems v).headD .vnull

def isEmptyObj : VValue → Bool
  | .vobj [] => true
  | _ => false

end VValue

open VValue

/-- Are all keys of `b` present in `a`?  (Non-recursive half of the
normalized object comparison.) -/
def keysIncluded (b a : List (String × VValue)) : Bool :=
  b.all (fun kv => (lookupF a kv.1).isSome)

mutual

/-- `VPackNormalizedCompare::equals`: arrays element-wise in order; objects
over the union of their key sets — every key of the left side must be
present and normalized-equal on the right, and the right side may not have
keys the left lacks. -/
def normEq : VValue → VValue → Bool
  | .vnull, .vnull => true
  | .vbool a, .vbool b => a == b
  | .vnum a, .vnum b => a == b
  | .vstr a, .vstr b => a == b
  | .varr a, .varr b => normEqList a b
  | .vobj a, .vobj b => normEqFieldsSub a b && keysIncluded b a
  | _, _ => false

def normEqList : List VValue → List VValue → Bool
  | [], [] => true
  | a :: as, b :: bs => normEq a b && normEqList as bs
  | _, _ => false

def normEqFieldsSub : List (String × VValue) → List (String × VValue) → Bool
  | [], _ => true
  | (k, v) :: rest, other =>
    (match lookupF other k with
     | some w => normEq v w
     | none => false) && normEqFieldsSub rest other

end

/-- `equals` applied to possibly-None slices (`none` models the None slice;
two None slices are equal, a None and a value are not). -/
def normEqO : Option VValue → Option VValue → Bool
  | none, none => true
  | some a, some b => normEq a b
  | _, _ => false

mutual

/-- `Slice::toJson` (string escaping elided; the values rendered in this code
are plain attribute names). -/
def renderV : VValue → String
  | .vnull => "null"
  | .vbool b => cond b "true" "false"
  | .vnum n => toString n
  | .vstr s => "\"" ++ s ++ "\""
  | .varr xs => "[" ++ renderList xs ++ "]"
  | .vobj fs => "\x7b" ++ renderFields fs ++ "\x7d"

def renderList : List VValue → String
  | [] => ""
  | [x] => renderV x
  | x :: rest => renderV x ++ "," ++ renderList rest

def renderFields : List (String × VValue) → String
  | [] => ""
  | [(k, v)] => "\"" ++ k ++ "\":" ++ renderV v
  | (k, v) :: rest => "\"" ++ k ++ "\":" ++ renderV v ++ "," ++ renderFields rest

end

/-! ### String constants

The attribute-key constants below come from `Cluster/Maintenance.h` and
`MaintenanceFeature` headers, which are not part of the source set; the
spellings of those not defined in the given translation units follow the
spec's data-model section.  No claim depends on the concrete spelling. -/

def ID : String := "id"
def NAME : String := "name"
def TYPE : String := "type"
def FIELDS : String := "fields"
def SHARDS : String := "shards"
def INDEXES : String := "indexes"
def LEADER : String := "leader"
def LOCAL_LEADER : String := "localLeader"
def DATABASE : String := "database"
def COLLECTION : String := "collection"
def SHARD : String := "shard"
def EDGE : String := "edge"
def PRIMARY : String := "primary"
def SERVERS : String := "servers"
def PLAN_ID : String := "planId"
def ERROR : String := "error"
def ERROR_NUM : String := "errorNum"
def ERROR_MESSAGE : String := "errorMessage"
def SELECTIVITY_ESTIMATE : String := "selectivityEstimate"
def COLLECTIONS : String := "Collections"
def UNDERSCORE : String := "_"
def CURRENT_COLLECTIONS : String := "Current/Collections/"
def CURRENT_DATABASES : String := "Current/Databases/"

/-- `maintenance::ActionDescription`: named parameter map plus optional
property payload. -/
structure ActionDescription where
  params : List (String × String)
  payload : Option VValue := none
deriving DecidableEq

/-- The `NAME` entry of an action's parameter map. -/
def ActionDescription.name (a : ActionDescription) : String :=
  match a.params.lookup NAME with
  | some n => n
  | none => ""

/-! ### `std::unordered_set<std::string>` model

The two membership sets (`colis`, `indis`) are modelled as lists; `emplace`
inserts when absent, `erase` removes the (unique) matching element. -/

def setInsert (s : List String) (x : String) : List String :=
  if x ∈ s then s else x :: s

def eraseStr (s : List String) (x : String) : List String :=
  s.filter (fun y => y ≠ x)

/-! ### part_001: property and index comparison (`PropertyComparator`) -/

/-- The fixed whitelist of compared collection properties (source name `cmp`,
renamed here to avoid clashing with `Ord.cmp`). -/
def cmpProps : List String := ["journalSize", "waitForSync", "doCompact", "indexBuckets"]

/-- `createProps`: copy of a planned collection description without its
`id`/`name` identity fields. -/
def createProps (s : VValue) : VValue :=
  .vobj ((objFields s).filter (fun kv => ¬(kv.1 = ID ∨ kv.1 = NAME)))

/-- `compareRelevantProps`: the differing whitelist properties, valued by the
planned side.  (If a differing planned property is absent the C++ builder
would throw on adding the None slice — caught at the phase boundary; the
model records the planned side as an `Option`.) -/
def compareRelevantProps (first second : VValue) : List (String × Option VValue) :=
  cmpProps.filterMap (fun property =>
    if getKey first property ≠ getKey second property then
      some (property, getKey first property)
    else none)

/-- The inner scan of `compareIndexes`: does a local index match the planned
type and (normalized-compared) field list, skipping primary/edge entries? -/
def lindexMatches (pfields : Option VValue) (ptype : String) (lindex : VValue) : Bool :=
  let ltype := getStrD lindex TYPE
  ¬(ltype = PRIMARY ∨ ltype = EDGE) && normEqO pfields (getKey lindex FIELDS) && ptype == ltype

/-- Loop body of `compareIndexes` over the planned index array: records each
non-primary/edge planned index's identity `shname ++ "/" ++ id` in `indis`,
then emits the planned index unless a matching local one is found. -/
def compareIndexesList (shname : String) (local_ : VValue) :
    List VValue → List String → List VValue × List String
  | [], indis => ([], indis)
  | pindex :: rest, indis =>
    let ptype := getStrD pindex TYPE
    if ptype = PRIMARY ∨ ptype = EDGE then
      compareIndexesList shname local_ rest indis
    else
      let indis1 := setInsert indis (shname ++ "/" ++ getStrD pindex ID)
      let found := isArr local_ && (arrElems local_).any (lindexMatches (getKey pindex FIELDS) ptype)
      let (ds, indis2) := compareIndexesList shname local_ rest indis1
      (if found then ds else pindex :: ds, indis2)

/-- `compareIndexes` (part_001 revision, with the `plan.isArray()` guard). -/
def compareIndexes (shname : String) (plan local_ : VValue) (indis : List String) :
    List VValue × List String :=
  match plan with
  | .varr ps => compareIndexesList shname local_ ps indis
  | _ => ([], indis)

/-! ### part_001: action constructors

`ActionDescription` literals as they are pushed in the source; the `FIELDS`
parameter of `EnsureIndex` carries `index.get(FIELDS).toJson()`. -/

def createDatabaseAction (dbname : String) : ActionDescription :=
  ⟨[(NAME, "CreateDatabase"), (DATABASE, dbname)], none⟩

def dropDatabaseAction (dbname : String) : ActionDescription :=
  ⟨[(NAME, "DropDatabase"), (DATABASE, dbname)], none⟩

def updateCollectionAction (dbname shname leaderVal localLeaderVal : String)
    (properties : List (String × Option VValue)) : ActionDescription :=
  ⟨[(NAME, "UpdateCollection"), (DATABASE, dbname), (COLLECTION, shname),
    (LEADER, leaderVal), (LOCAL_LEADER, localLeaderVal)],
   some (.vobj (properties.map (fun kv => (kv.1, kv.2.getD .vnull))))⟩

def ensureIndexAction (dbname shname : String) (index : VValue) : ActionDescription :=
  ⟨[(NAME, "EnsureIndex"), (COLLECTION, shname), (DATABASE, dbname),
    (TYPE, getStrD index TYPE), (FIELDS, renderV (getD index FIELDS))],
   some index⟩

def createCollectionAction (dbname colname shname leaderVal : String)
    (props : VValue) : ActionDescription :=
  ⟨[(NAME, "CreateCollection"), (COLLECTION, colname), (SHARD, shname),
    (DATABASE, dbname), (LEADER, leaderVal)], some props⟩

def dropCollectionAction (dbname colname : String) : ActionDescription :=
  ⟨[(NAME, "DropCollection"), (DATABASE, dbname), (COLLECTION, colname)], none⟩

def resignShardLeadershipAction (dbname shard : String) : ActionDescription :=
  ⟨[(NAME, "ResignShardLeadership"), (DATABASE, dbname), (SHARD, shard)], none⟩

def dropIndexAction (dbname colname id : String) : ActionDescription :=
  ⟨[(NAME, "DropIndex"), (DATABASE, dbname), (COLLECTION, colname), ("index", id)], none⟩

def synchronizeShardAction (dbname colname shname leader : String) : ActionDescription :=
  ⟨[(NAME, "SynchronizeShard"), (DATABASE, dbname), (COLLECTION, colname),
    (SHARD, shname), (LEADER, leader)], none⟩

/-! ### part_001: `PlanShardReconciler` (`handlePlanShard`) -/

/-- `handlePlanShard` (part_001): processes one entry `db` of a planned
shard's server list; returns the emitted actions and the updated membership
sets. -/
def handlePlanShard (db cprops ldb : VValue)
    (dbname colname shname serverId leaderId : String)
    (colis indis : List String) :
    List ActionDescription × List String × List String :=
  let shouldBeLeading := serverId = leaderId
  if asStr db = serverId then
    let colis1 := setInsert colis shname
    let props := createProps cprops
    if hasKeyB ldb shname then
      let lcol := getD ldb shname
      let leading := getStrD lcol LEADER = ""
      let properties := compareRelevantProps cprops lcol
      let upd :=
        if ¬properties.isEmpty ∨ leading ≠ shouldBeLeading then
          [updateCollectionAction dbname shname
            (if shouldBeLeading then "" else leaderId) (getStrD lcol LEADER) properties]
        else []
      let ix :=
        if hasKeyB cprops INDEXES then
          let (difference, indis1) :=
            compareIndexes shname (getD cprops INDEXES) (getD lcol INDEXES) indis
          (difference.map (fun index => ensureIndexAction dbname shname index), indis1)
        else ([], indis)
      (upd ++ ix.1, colis1, ix.2)
    else
      ([createCollectionAction dbname colname shname
          (if shouldBeLeading then "" else leaderId) props], colis1, indis)
  else
    ([], colis, indis)

/-! ### part_001: `LocalShardReconciler` (`handleLocalShard`) -/

/-- The `plannedLeader` read at the head of `handleLocalShard`: first entry of
the shard map's server list for this shard, when present and an array. -/
def plannedLeaderOf (shardMap : VValue) (colname : String) : String :=
  if hasKeyB shardMap colname ∧ isArr (getD shardMap colname) then
    asStr (firstElemD (getD shardMap colname))
  else ""

/-- Index-reconciliation loop of `handleLocalShard`: for every non-primary/
edge local index, if `colname ++ "/" ++ id` is in `indis` the source calls
`indis.erase(id)` — note it erases the *bare* id although the set holds the
prefixed identity — otherwise it emits `DropIndex`. -/
def dropIndexLoop (dbname colname : String) :
    List VValue → List String → List ActionDescription × List String
  | [], indis => ([], indis)
  | index :: rest, indis =>
    let type := getStrD index TYPE
    if type ≠ PRIMARY ∧ type ≠ EDGE then
      let id := getStrD index ID
      if (colname ++ "/" ++ id) ∈ indis then
        dropIndexLoop dbname colname rest (eraseStr indis id)
      else
        let (as, indis1) := dropIndexLoop dbname colname rest indis
        (dropIndexAction dbname colname id :: as, indis1)
    else
      dropIndexLoop dbname colname rest indis

/-- `handleLocalShard` (part_001): resignation check, extraneity check
against the shard-membership set, then index reconciliation. -/
def handleLocalShard (dbname colname : String) (cprops shardMap : VValue)
    (colis indis : List String) (serverId : String) :
    List ActionDescription × List String × List String :=
  let plannedLeader := plannedLeaderOf shardMap colname
  let localLeader := getStrD cprops LEADER = ""
  if plannedLeader = UNDERSCORE ++ serverId ∧ localLeader then
    ([resignShardLeadershipAction dbname colname], colis, indis)
  else
    let drop := colis.isEmpty ∨ colname ∉ colis
    if drop then
      ([dropCollectionAction dbname colname], colis, indis)
    else
      let colis1 := eraseStr colis colname
      let ixs :=
        if hasKeyB cprops INDEXES ∧ isArr (getD cprops INDEXES) then
          arrElems (getD cprops INDEXES)
        else []
      let (acts, indis1) := dropIndexLoop dbname colname ixs indis
      (acts, colis1, indis1)

/-! ### part_001: `ShardIndex` (`getShardMap`) and `DiffEngine`
(`diffPlanLocal`) -/

/-- The flattened (shardName, servers) pairs built by `getShardMap`. -/
def shardMapList (plan : VValue) : List (String × VValue) :=
  (objFields plan).flatMap (fun database =>
    (objFields database.2).flatMap (fun collection =>
      objFields (getD collection.2 SHARDS)))

/-- `getShardMap`: flat map shardName → planned server list. -/
def getShardMap (plan : VValue) : VValue := .vobj (shardMapList plan)

/-- Inner loop of the Plan pass: one `handlePlanShard` call per entry of a
shard's planned server list. -/
def planServersLoop (cprops ldb : VValue) (dbname colname shname serverId leaderId : String) :
    List VValue → List String → List String →
    List ActionDescription × List String × List String
  | [], colis, indis => ([], colis, indis)
  | db :: rest, colis, indis =>
    let r1 := handlePlanShard db cprops ldb dbname colname shname serverId leaderId colis indis
    let r2 := planServersLoop cprops ldb dbname colname shname serverId leaderId rest r1.2.1 r1.2.2
    (r1.1 ++ r2.1, r2.2)

/-- Plan pass over a collection's shards (with the part_001
`shard.value.isArray()` guard). -/
def planShardsLoop (cprops ldb : VValue) (dbname colname serverId : String) :
    List (String × VValue) → List String → List String →
    List ActionDescription × List String × List String
  | [], colis, indis => ([], colis, indis)
  | (shname, sv) :: rest, colis, indis =>
    if isArr sv then
      let r1 := planServersLoop cprops ldb dbname colname shname serverId
        (asStr (firstElemD sv)) (arrElems sv) colis indis
      let r2 := planShardsLoop cprops ldb dbname colname serverId rest r1.2.1 r1.2.2
      (r1.1 ++ r2.1, r2.2)
    else
      planShardsLoop cprops ldb dbname colname serverId rest colis indis

/-- Plan pass over a database's collections. -/
def planColsLoop (ldb : VValue) (dbname serverId : String) :
    List (String × VValue) → List String → List String →
    List ActionDescription × List String × List String
  | [], colis, indis => ([], colis, indis)
  | (colname, cprops) :: rest, colis, indis =>
    let r1 := planShardsLoop cprops ldb dbname colname serverId
      (objFields (getD cprops SHARDS)) colis indis
    let r2 := planColsLoop ldb dbname serverId rest r1.2.1 r1.2.2
    (r1.1 ++ r2.1, r2.2)

/-- Plan pass over the databases of Plan's `Collections` subtree; a database
missing locally yields `CreateDatabase` instead of descending. -/
def planDbsLoop (local_ : VValue) (serverId : String) :
    List (String × VValue) → List String → List String →
    List ActionDescription × List String × List String
  | [], colis, indis => ([], colis, indis)
  | (dbname, pdb) :: rest, colis, indis =>
    if hasKeyB local_ dbname then
      let r1 := planColsLoop (getD local_ dbname) dbname serverId (objFields pdb) colis indis
      let r2 := planDbsLoop local_ serverId rest r1.2.1 r1.2.2
      (r1.1 ++ r2.1, r2.2)
    else
      let r2 := planDbsLoop local_ serverId rest colis indis
      (createDatabaseAction dbname :: r2.1, r2.2)

/-- Local pass over a database's locally held shards (system names starting
with the reserved marker are excluded by the caller's guard). -/
def localShardsLoop (dbname : String) (shardMap : VValue) (serverId : String) :
    List (String × VValue) → List String → List String →
    List ActionDescription × List String × List String
  | [], colis, indis => ([], colis, indis)
  | (shName, col) :: rest, colis, indis =>
    if shName.front ≠ '_' then
      let r1 := handleLocalShard dbname shName col shardMap colis indis serverId
      let r2 := localShardsLoop dbname shardMap serverId rest r1.2.1 r1.2.2
      (r1.1 ++ r2.1, r2.2)
    else
      localShardsLoop dbname shardMap serverId rest colis indis

/-- Local pass over the locally held databases (only those also present in
Plan's `Collections` subtree are descended into). -/
def localDbsLoop (pdbs shardMap : VValue) (serverId : String) :
    List (String × VValue) → List String → List String →
    List ActionDescription × List String × List String
  | [], colis, indis => ([], colis, indis)
  | (dbname, dbv) :: rest, colis, indis =>
    if hasKeyB pdbs dbname then
      let r1 := localShardsLoop dbname shardMap serverId (objFields dbv) colis indis
      let r2 := localDbsLoop pdbs shardMap serverId rest r1.2.1 r1.2.2
      (r1.1 ++ r2.1, r2.2)
    else
      localDbsLoop pdbs shardMap serverId rest colis indis

/-- `diffPlanLocal` (part_001): database create/drop passes, the Plan pass
(4.3) and the Local pass (4.4), appended in generation order. -/
def diffPlanLocal (plan local_ : VValue) (serverId : String) : List ActionDescription :=
  let a1 := (objFields (getD plan "Databases")).filterMap (fun pdb =>
    if ¬hasKeyB local_ pdb.1 then some (createDatabaseAction pdb.1) else none)
  let a2 := (objFields local_).filterMap (fun ldb =>
    if ¬hasPath plan ["Databases", ldb.1] then some (dropDatabaseAction ldb.1) else none)
  let pdbs := getD plan COLLECTIONS
  let r3 := planDbsLoop local_ serverId (objFields pdbs) [] []
  let shardMap := getShardMap pdbs
  let r4 := localDbsLoop pdbs shardMap serverId (objFields local_) r3.2.1 r3.2.2
  a1 ++ a2 ++ r3.1 ++ r4.1

/-! ### Storage-engine collaborator

`Databases::lookup` and `vocbase->lookupCollection(...)->followers()` are the
external storage accessors (spec §1 "out of scope ... local storage engine
accessor").  They are modelled as an explicit parameter. -/

structure StorageEngine where
  /-- `Databases::lookup`: database id and name, or null. -/
  databases : String → Option (Nat × String)
  /-- `vocbase->lookupCollection(shard)` composed with
  `collection->followers()->get()`: the follower server list, or null. -/
  collections : String → String → Option (List String)

/-- `removeSelectivityEstimate`: an index entry without its volatile
`selectivityEstimate` attribute. -/
def removeSelectivityEstimate (index : VValue) : VValue :=
  .vobj ((objFields index).filter (fun i => i.1 ≠ SELECTIVITY_ESTIMATE))

/-- `assembleLocalCollectioInfo` (part_001): empty object on lookup failure,
otherwise the error-free snapshot with stripped indexes and the server list
headed by this node. -/
def assembleLocalCollectioInfo (eng : StorageEngine) (info : VValue)
    (database shard ourselves : String) : VValue :=
  match eng.databases database with
  | none => .vobj []
  | some _ =>
    match eng.collections database shard with
    | none => .vobj []
    | some followers =>
      .vobj [(ERROR, .vbool false), (ERROR_MESSAGE, .vstr ""), (ERROR_NUM, .vnum 0),
             (INDEXES, .varr ((if isArr (getD info INDEXES) then arrElems (getD info INDEXES)
                               else []).map removeSelectivityEstimate)),
             (SERVERS, .varr (.vstr ourselves :: followers.map .vstr))]

/-- `equivalent`: every key of the local snapshot must map to a
normalized-equal value in the current entry (one-directional). -/
def equivalent (local_ current : VValue) : Bool :=
  (objFields local_).all (fun i => normEqO (some i.2) (getKey current i.1))

/-- `assembleLocalDatabaseInfo`: empty object on lookup failure, otherwise
the minimal info snapshot. -/
def assembleLocalDatabaseInfo (eng : StorageEngine) (database : String) : VValue :=
  match eng.databases database with
  | none => .vobj []
  | some info =>
    .vobj [(ERROR, .vbool false), (ERROR_NUM, .vnum 0), (ERROR_MESSAGE, .vstr ""),
           (ID, .vstr (toString info.1)), ("name", .vstr info.2)]

/-! ### part_001: `CurrentReporter` (`reportInCurrent`)

Report writes are modelled as `(path, op-document)` pairs, the op-document
being the object written under the path key in the report builder. -/

def setOp (payload : VValue) : VValue := .vobj [("op", .vstr "set"), ("payload", payload)]

def delOp : VValue := .vobj [("op", .vstr "delete")]

/-- Per-database head of the forward pass: report the database under
`Current/Databases/<db>/<serverId>` when absent there. -/
def reportDatabaseEntry (eng : StorageEngine) (cur : VValue) (serverId dbName : String) :
    List (String × VValue) :=
  if ¬hasPath cur ["Databases", dbName, serverId] then
    let localDatabaseInfo := assembleLocalDatabaseInfo eng dbName
    if ¬isEmptyObj localDatabaseInfo then
      [(CURRENT_DATABASES ++ dbName ++ "/" ++ serverId, setOp localDatabaseInfo)]
    else []
  else []

/-- Per-shard body of the forward pass: leader shards report their snapshot
when Current has no equivalent entry; follower shards whose Current server
list still names this node first report the resignation-marked list. -/
def reportShardInCurrent (eng : StorageEngine) (cur : VValue) (dbName serverId : String)
    (shName : String) (shSlice : VValue) : List (String × VValue) :=
  let colName := getStrD shSlice PLAN_ID
  if getStrD shSlice LEADER = "" then
    let localCollectionInfo := assembleLocalCollectioInfo eng shSlice dbName shName serverId
    if isEmptyObj localCollectionInfo then []
    else
      let cp := [COLLECTIONS, dbName, colName, shName]
      let inCurrent := hasPath cur cp
      if ¬inCurrent ∨ (inCurrent ∧ ¬equivalent localCollectionInfo (getPathD cur cp)) then
        [(CURRENT_COLLECTIONS ++ dbName ++ "/" ++ colName ++ "/" ++ shName,
          setOp localCollectionInfo)]
      else []
  else
    match getPath cur [COLLECTIONS, dbName, colName, shName, SERVERS] with
    | some s =>
      if isArr s ∧ asStr (firstElemD s) = serverId then
        let ns : List VValue :=
          match arrElems s with
          | [] => []
          | i :: restS => .vstr (UNDERSCORE ++ asStr i) :: restS.map (fun j => .vstr (asStr j))
        [(CURRENT_COLLECTIONS ++ dbName ++ "/" ++ colName ++ "/" ++ shName ++ "/" ++ SERVERS,
          setOp (.varr ns))]
      else []
    | none => []

/-- Forward pass over one locally held database. -/
def reportLocalDb (eng : StorageEngine) (cur : VValue) (serverId dbName : String)
    (dbVal : VValue) : List (String × VValue) :=
  reportDatabaseEntry eng cur serverId dbName ++
  (objFields dbVal).flatMap (fun shard =>
    if shard.1.front = '_' then []
    else reportShardInCurrent eng cur dbName serverId shard.1 shard.2)

/-- Backward pass, per Current shard entry: retract entries this node leads
that are gone from Local and from the Plan shard map. -/
def backwardShard (local_ shardMap : VValue) (serverId dbName colName shName : String)
    (shVal : VValue) : List (String × VValue) :=
  match getKey shVal SERVERS with
  | some servers =>
    if isArr servers ∧ (arrElems servers).length > 0 ∧
       asStr (firstElemD servers) = serverId ∧
       ¬hasPath local_ [dbName, shName] ∧ ¬hasKeyB shardMap shName then
      [(CURRENT_COLLECTIONS ++ dbName ++ "/" ++ colName ++ "/" ++ shName, delOp)]
    else []
  | none => []

/-- Backward pass, per Current database entry. -/
def backwardDb (plan local_ shardMap : VValue) (serverId dbName : String)
    (dbVal : VValue) : List (String × VValue) :=
  if ¬hasKeyB local_ dbName ∧ ¬hasKeyB (getD plan COLLECTIONS) dbName then
    [(CURRENT_DATABASES ++ dbName ++ "/" ++ serverId, delOp)]
  else
    (objFields dbVal).flatMap (fun collection =>
      (objFields collection.2).flatMap (fun shard =>
        backwardShard local_ shardMap serverId dbName collection.1 shard.1 shard.2))

/-- `reportInCurrent` (part_001): forward pass over Local, then backward
pass over Current's collections. -/
def reportInCurrent (eng : StorageEngine) (plan cur local_ : VValue) (serverId : String) :
    List (String × VValue) :=
  let forward := (objFields local_).flatMap (fun database =>
    reportLocalDb eng cur serverId database.1 database.2)
  let cdbs := getD cur COLLECTIONS
  let shardMap := getShardMap (getD plan COLLECTIONS)
  let backward := (objFields cdbs).flatMap (fun database =>
    backwardDb plan local_ shardMap serverId database.1 database.2)
  forward ++ backward

/-! ### part_001: `ReplicaSynchronizer` (`syncReplicatedShardsWithLeaders`) -/

/-- `indexOf<std::string>`: position of the first string-equal entry, `-1`
when absent or when the slice is not an array; the counter advances over
non-string entries too. -/
def indexOfStrGo (val : String) : List VValue → Int → Int
  | [], _ => -1
  | entry :: rest, counter =>
    match entry with
    | .vstr s => if s = val then counter else indexOfStrGo val rest (counter + 1)
    | _ => indexOfStrGo val rest (counter + 1)

def indexOfStr (slice : VValue) (val : String) : Int :=
  match slice with
  | .varr xs => indexOfStrGo val xs 0
  | _ => -1

/-- Per-shard body of `syncReplicatedShardsWithLeaders`. -/
def syncShard (pdbs cdbs local_ : VValue) (serverId dbname colname shname : String) :
    List ActionDescription :=
  if ¬hasPath local_ [dbname, shname] then []
  else if ¬hasPath cdbs [dbname, colname, shname] then []
  else
    match getPath pdbs [dbname, colname, SHARDS, shname] with
    | none => []
    | some pservers =>
      match getPath cdbs [dbname, colname, shname, SERVERS] with
      | none => []
      | some cservers =>
        if indexOfStr pservers serverId ≤ 0 then []
        else if indexOfStr cservers serverId > 0 then []
        else [synchronizeShardAction dbname colname shname (asStr (firstElemD pservers))]

/-- Per-collection body of `syncReplicatedShardsWithLeaders`
(`if (cdbs.get(dbname).hasKey(colname))` and the shard loop). -/
def syncColBody (pdbs cdbs local_ : VValue) (serverId dbname colname : String)
    (pcolv : VValue) : List ActionDescription :=
  if hasKeyB (getD cdbs dbname) colname then
    (objFields (getD pcolv SHARDS)).flatMap (fun pshrd =>
      syncShard pdbs cdbs local_ serverId dbname colname pshrd.1)
  else []

/-- Per-database body of `syncReplicatedShardsWithLeaders`
(`if (local.hasKey(dbname) && cdbs.hasKey(dbname))` and the collection
loop). -/
def syncDbBody (pdbs cdbs local_ : VValue) (serverId dbname : String)
    (pdbv : VValue) : List ActionDescription :=
  if hasKeyB local_ dbname ∧ hasKeyB cdbs dbname then
    (objFields pdbv).flatMap (fun pcol =>
      syncColBody pdbs cdbs local_ serverId dbname pcol.1 pcol.2)
  else []

/-- `syncReplicatedShardsWithLeaders`: emit a `SynchronizeShard` action for
every shard where this node is a planned follower not yet in sync per
Current.  (Identical in both revisions of the translation unit.) -/
def syncReplicatedShardsWithLeaders (plan current local_ : VValue) (serverId : String) :
    List ActionDescription :=
  let pdbs := getD plan COLLECTIONS
  let cdbs := getD current COLLECTIONS
  (objFields pdbs).flatMap (fun pdb =>
    syncDbBody pdbs cdbs local_ serverId pdb.1 pdb.2)

/-! ### Older revision (`src/arangod/Cluster/Maintenance.cpp`)

The older revision of the translation unit.  Identical helpers
(`createProps`, `compareRelevantProps`, `equivalent`,
`assembleLocalDatabaseInfo`, `indexOf`, `syncReplicatedShardsWithLeaders`)
are shared with the part_001 embedding above.  A null-pointer dereference —
which, unlike the velocypack exceptions, no phase-boundary catch absorbs —
is modelled as `Except.error ()`. -/

namespace OldRev

open VValue

/-- `compareIndexes` (older revision: both arrays iterated without
`isArray` guards; a mistyped argument throws in the source and is caught at
the phase boundary, modelled as empty iteration). -/
def compareIndexes (shname : String) (plan local_ : VValue) (indis : List String) :
    List VValue × List String :=
  compareIndexesList shname local_ (arrElems plan) indis

/-- `handlePlanShard` (older revision): `UpdateCollection` is driven by the
property diff only (no leadership-flag comparison), `EnsureIndex` emission is
gated on a non-empty difference array. -/
def handlePlanShard (db cprops ldb : VValue)
    (dbname colname shname serverId leaderId : String)
    (colis indis : List String) :
    List ActionDescription × List String × List String :=
  let shouldBeLeader := serverId = leaderId
  if asStr db = serverId then
    let colis1 := setInsert colis shname
    let props := createProps cprops
    if hasKeyB ldb shname then
      let lcol := getD ldb shname
      let properties := compareRelevantProps cprops lcol
      let upd :=
        if ¬properties.isEmpty then
          [updateCollectionAction dbname shname
            (if shouldBeLeader then "" else leaderId) (getStrD lcol LEADER) properties]
        else []
      let ix :=
        if hasKeyB cprops INDEXES then
          let (difference, indis1) :=
            compareIndexes shname (getD cprops INDEXES) (getD lcol INDEXES) indis
          (difference.map (fun index => ensureIndexAction dbname shname index), indis1)
        else ([], indis)
      (upd ++ ix.1, colis1, ix.2)
    else
      ([createCollectionAction dbname colname shname
          (if shouldBeLeader then "" else leaderId) props], colis1, indis)
  else
    ([], colis, indis)

/-- Index loop of the older `handleLocalShard`: membership is tested with
the *bare* id, and the `DropIndex` push is commented out (`#warning`). -/
def oldIndexLoop : List VValue → List String → List String
  | [], indis => indis
  | index :: rest, indis =>
    let type := getStrD index TYPE
    if type ≠ PRIMARY ∧ type ≠ EDGE then
      let id := getStrD index ID
      if id ∈ indis then oldIndexLoop rest (eraseStr indis id)
      else oldIndexLoop rest indis
    else oldIndexLoop rest indis

/-- `handleLocalShard` (older revision): no resignation branch, no
`DropIndex` emission. -/
def handleLocalShard (dbname colname : String) (cprops : VValue)
    (colis indis : List String) :
    List ActionDescription × List String × List String :=
  let drop := colis.isEmpty ∨ colname ∉ colis
  if drop then
    ([dropCollectionAction dbname colname], colis, indis)
  else
    let colis1 := eraseStr colis colname
    let indis1 :=
      if hasKeyB cprops INDEXES then oldIndexLoop (arrElems (getD cprops INDEXES)) indis
      else indis
    ([], colis1, indis1)

def planServersLoop (cprops ldb : VValue) (dbname colname shname serverId leaderId : String) :
    List VValue → List String → List String →
    List ActionDescription × List String × List String
  | [], colis, indis => ([], colis, indis)
  | db :: rest, colis, indis =>
    let r1 := handlePlanShard db cprops ldb dbname colname shname serverId leaderId colis indis
    let r2 := planServersLoop cprops ldb dbname colname shname serverId leaderId rest r1.2.1 r1.2.2
    (r1.1 ++ r2.1, r2.2)

/-- Older Plan pass over a collection's shards (no `isArray` guard on the
server list). -/
def planShardsLoop (cprops ldb : VValue) (dbname colname serverId : String) :
    List (String × VValue) → List String → List String →
    List ActionDescription × List String × List String
  | [], colis, indis => ([], colis, indis)
  | (shname, sv) :: rest, colis, indis =>
    let r1 := planServersLoop cprops ldb dbname colname shname serverId
      (asStr (firstElemD sv)) (arrElems sv) colis indis
    let r2 := planShardsLoop cprops ldb dbname colname serverId rest r1.2.1 r1.2.2
    (r1.1 ++ r2.1, r2.2)

def planColsLoop (ldb : VValue) (dbname serverId : String) :
    List (String × VValue) → List String → List String →
    List ActionDescription × List String × List String
  | [], colis, indis => ([], colis, indis)
  | (colname, cprops) :: rest, colis, indis =>
    let r1 := planShardsLoop cprops ldb dbname colname serverId
      (objFields (getD cprops SHARDS)) colis indis
    let r2 := planColsLoop ldb dbname serverId rest r1.2.1 r1.2.2
    (r1.1 ++ r2.1, r2.2)

def planDbsLoop (local_ : VValue) (serverId : String) :
    List (String × VValue) → List String → List String →
    List ActionDescription × List String × List String
  | [], colis, indis => ([], colis, indis)
  | (dbname, pdb) :: rest, colis, indis =>
    if hasKeyB local_ dbname then
      let r1 := planColsLoop (getD local_ dbname) dbname serverId (objFields pdb) colis indis
      let r2 := planDbsLoop local_ serverId rest r1.2.1 r1.2.2
      (r1.1 ++ r2.1, r2.2)
    else
      let r2 := planDbsLoop local_ serverId rest colis indis
      (createDatabaseAction dbname :: r2.1, r2.2)

def localShardsLoop (dbname serverId : String) :
    List (String × VValue) → List String → List String →
    List ActionDescription × List String × List String
  | [], colis, indis => ([], colis, indis)
  | (shName, col) :: rest, colis, indis =>
    if shName.front ≠ '_' then
      let r1 := handleLocalShard dbname shName col colis indis
      let r2 := localShardsLoop dbname serverId rest r1.2.1 r1.2.2
      (r1.1 ++ r2.1, r2.2)
    else
      localShardsLoop dbname serverId rest colis indis

def localDbsLoop (pdbs : VValue) (serverId : String) :
    List (String × VValue) → List String → List String →
    List ActionDescription × List String × List String
  | [], colis, indis => ([], colis, indis)
  | (dbname, dbv) :: rest, colis, indis =>
    if hasKeyB pdbs dbname then
      let r1 := localShardsLoop dbname serverId (objFields dbv) colis indis
      let r2 := localDbsLoop pdbs serverId rest r1.2.1 r1.2.2
      (r1.1 ++ r2.1, r2.2)
    else
      localDbsLoop pdbs serverId rest colis indis

/-- `diffPlanLocal` (older revision). -/
def diffPlanLocal (plan local_ : VValue) (serverId : String) : List ActionDescription :=
  let a1 := (objFields (getD plan "Databases")).filterMap (fun pdb =>
    if ¬hasKeyB local_ pdb.1 then some (createDatabaseAction pdb.1) else none)
  let a2 := (objFields local_).filterMap (fun ldb =>
    if ¬hasPath plan ["Databases", ldb.1] then some (dropDatabaseAction ldb.1) else none)
  let pdbs := getD plan COLLECTIONS
  let r3 := planDbsLoop local_ serverId (objFields pdbs) [] []
  let r4 := localDbsLoop pdbs serverId (objFields local_) r3.2.1 r3.2.2
  a1 ++ a2 ++ r3.1 ++ r4.1

/-- `executePlan` (older revision): modelled as the list of actions handed
one at a time to `feature.addAction`; its `Result` is the default-constructed
(ok) one. -/
def executePlan (plan local_ : VValue) (serverId : String) : List ActionDescription :=
  diffPlanLocal plan local_ serverId

/-- `assembleLocalCollectioInfo` (older revision).  When either lookup
returns null the source merely logs and then *dereferences the null pointer*
(`vocbase->lookupCollection(shard)` resp. `collection->followers()`); that
is not a catchable C++ exception and is modelled as `Except.error ()`. -/
def assembleLocalCollectioInfo (eng : StorageEngine) (info : VValue)
    (database shard ourselves : String) : Except Unit VValue :=
  match eng.databases database with
  | none => .error ()
  | some _ =>
    match eng.collections database shard with
    | none => .error ()
    | some followers =>
      .ok (.vobj [(ERROR, .vbool false), (ERROR_MESSAGE, .vstr ""), (ERROR_NUM, .vnum 0),
                  (INDEXES, .varr ((arrElems (getD info INDEXES)).map removeSelectivityEstimate)),
                  (SERVERS, .varr (.vstr ourselves :: followers.map .vstr))])

/-- Per-shard body of the older `reportInCurrent` (leader branch calls the
crash-capable `assembleLocalCollectioInfo`; the follower branch lacks the
`isArray` check of the newer revision). -/
def reportShard (eng : StorageEngine) (cur : VValue) (dbName serverId : String)
    (shName : String) (shSlice : VValue) : Except Unit (List (String × VValue)) :=
  let colName := getStrD shSlice PLAN_ID
  if getStrD shSlice LEADER = "" then
    match assembleLocalCollectioInfo eng shSlice dbName shName serverId with
    | .error e => .error e
    | .ok localCollectionInfo =>
      let cp := [COLLECTIONS, dbName, colName, shName]
      let inCurrent := hasPath cur cp
      if ¬inCurrent ∨ (inCurrent ∧ ¬equivalent localCollectionInfo (getPathD cur cp)) then
        .ok [(CURRENT_COLLECTIONS ++ dbName ++ "/" ++ colName ++ "/" ++ shName,
              setOp localCollectionInfo)]
      else .ok []
  else
    match getPath cur [COLLECTIONS, dbName, colName, shName, SERVERS] with
    | some s =>
      if asStr (firstElemD s) = serverId then
        let ns : List VValue :=
          match arrElems s with
          | [] => []
          | i :: restS => .vstr (UNDERSCORE ++ asStr i) :: restS.map (fun j => .vstr (asStr j))
        .ok [(CURRENT_COLLECTIONS ++ dbName ++ "/" ++ colName ++ "/" ++ shName
              ++ "/" ++ SERVERS, setOp (.varr ns))]
      else .ok []
    | none => .ok []

def reportShardsLoop (eng : StorageEngine) (cur : VValue) (dbName serverId : String) :
    List (String × VValue) → Except Unit (List (String × VValue))
  | [] => .ok []
  | (shName, sh) :: rest =>
    if shName.front = '_' then reportShardsLoop eng cur dbName serverId rest
    else do
      let w ← reportShard eng cur dbName serverId shName sh
      let ws ← reportShardsLoop eng cur dbName serverId rest
      return w ++ ws

def reportDbsLoop (eng : StorageEngine) (cur : VValue) (serverId : String) :
    List (String × VValue) → Except Unit (List (String × VValue))
  | [] => .ok []
  | (dbName, dbVal) :: rest => do
    let w1 := reportDatabaseEntry eng cur serverId dbName
    let w2 ← reportShardsLoop eng cur dbName serverId (objFields dbVal)
    let ws ← reportDbsLoop eng cur serverId rest
    return w1 ++ w2 ++ ws

/-- `reportInCurrent` (older revision: forward pass only, no backward
retraction pass). -/
def reportInCurrent (eng : StorageEngine) (plan cur local_ : VValue) (serverId : String) :
    Except Unit (List (String × VValue)) :=
  reportDbsLoop eng cur serverId (objFields local_)

/-- `phaseOne` (older revision): adds the (empty) `phaseOne` report object
and runs `executePlan` inside a failure boundary; its `Result` is therefore
always ok. -/
def phaseOne (plan cur local_ : VValue) (serverId : String) :
    Bool × List (String × VValue) × List ActionDescription :=
  (true, [], executePlan plan local_ serverId)

/-- `phaseTwo` (older revision): `reportInCurrent` (whose modelled crash
escapes the `catch (std::exception)` boundary) then
`syncReplicatedShardsWithLeaders`; its returned `Result` is the (ok) result
of the latter. -/
def phaseTwo (eng : StorageEngine) (plan cur local_ : VValue) (serverId : String) :
    Except Unit (Bool × List (String × VValue) × List ActionDescription) := do
  let frag ← reportInCurrent eng plan cur local_ serverId
  return (true, frag, syncReplicatedShardsWithLeaders plan cur local_ serverId)

/-- `handleChange` (older revision): phaseOne, then — only when its `Result`
is ok — the `Plan` version echo, phaseTwo, and — only when *its* `Result` is
ok — the `Current` version echo.  The output is the final `Result`'s
ok-flag, the composed report fragments in order, and the actions handed to
the maintenance feature. -/
def handleChange (eng : StorageEngine) (plan current local_ : VValue) (serverId : String) :
    Except Unit (Bool × List (String × VValue) × List ActionDescription) := do
  let (ok1, frag1, acts1) := phaseOne plan current local_ serverId
  let report1 := [("phaseOne", VValue.vobj frag1)]
  if ok1 then
    let report2 := report1 ++ [("Plan", VValue.vobj [("Version", getD plan "Version")])]
    let (ok2, frag2, acts2) ← phaseTwo eng plan current local_ serverId
    let report3 := report2 ++ [("phaseTwo", VValue.vobj frag2)]
    if ok2 then
      return (ok2, report3 ++ [("Current", VValue.vobj [("Version", getD current "Version")])],
              acts1 ++ acts2)
    else
      return (ok2, report3, acts1 ++ acts2)
  else
    return (ok1, report1, acts1)

end OldRev

/-! ### Concrete fixtures used by the claim theorems and witnesses -/

/-- A hash index document with the given id and field list. -/
def hashIdx (id : String) (fs : List String) : VValue :=
  .vobj [(ID, .vstr id), (TYPE, .vstr "hash"), (FIELDS, .varr (fs.map .vstr))]

/-- A locally held leader shard `s1` of collection `c1` with one hash index. -/
def lshard1 : VValue :=
  .vobj [(LEADER, .vstr ""), (PLAN_ID, .vstr "c1"), (INDEXES, .varr [hashIdx "1" ["x"]])]

/-- Shard map assigning `s1` to leader `A`. -/
def shardMap1 : VValue := .vobj [("s1", .varr [.vstr "A"])]

/-- A storage engine on which every lookup fails. -/
def engNone : StorageEngine := ⟨fun _ => none, fun _ _ => none⟩

/-- A storage engine that resolves database `d`, fails to resolve shard `s1`
and resolves shard `s2` with follower list `["B"]`. -/
def engPartial : StorageEngine :=
  ⟨fun _ => some (1, "d"),
   fun _ shard => if shard = "s2" then some ["B"] else none⟩

/-- A storage engine on which every lookup succeeds. -/
def engAll : StorageEngine := ⟨fun _ => some (1, "d"), fun _ _ => some []⟩

/-- Local tree for the C8 scenario: database `d` holds leader shards `s1`
(unresolvable) and `s2` (resolvable). -/
def local8 : VValue :=
  .vobj [("d", .vobj [
    ("s1", .vobj [(LEADER, .vstr ""), (PLAN_ID, .vstr "c1")]),
    ("s2", .vobj [(LEADER, .vstr ""), (PLAN_ID, .vstr "c2")])])]

/-- Current tree for the C8 scenario: the database is already reported, no
collection entries exist yet. -/
def cur8 : VValue := .vobj [("Databases", .vobj [("d", .vobj [("A", .vobj [])])])]

/-! ### C1 — index-membership identities in the Local pass -/

/-- C1: For every index identity recorded as `shardName ++ "/" ++ indexId` by
`compareIndexes`, the claim states that `handleLocalShard`, on finding the
identity present, removes it from the set.  The source looks the identity up
under the prefixed key but then calls `indis.erase(id)` with the *bare* id,
so the identity is never removed: on a shard `s1` whose only local index `1`
is recorded as `"s1/1"`, the set still holds `"s1/1"` afterwards (no
`DropIndex` is emitted for it, as the lookup itself uses the correct key). -/
theorem handleLocalShard_erase_misses_identity :
    handleLocalShard "d" "s1" lshard1 shardMap1 ["s1"] ["s1/1"] "A"
      = ([], [], ["s1/1"]) := by decide

/-! ### C6 — resignation check of the Local pass -/

/-- C6: whenever the planned leader of the shard equals the reserved marker
prepended to this node's id and the local leader field is empty,
`handleLocalShard` emits exactly one `ResignShardLeadership` action for the
shard and nothing else in that pass — in particular no `DropCollection` and
no `DropIndex` — and leaves both membership sets untouched. -/
theorem handleLocalShard_resigns (dbname colname : String) (cprops shardMap : VValue)
    (colis indis : List String) (serverId : String)
    (hplanned : plannedLeaderOf shardMap colname = UNDERSCORE ++ serverId)
    (hlocal : getStrD cprops LEADER = "") :
    handleLocalShard dbname colname cprops shardMap colis indis serverId
      = ([resignShardLeadershipAction dbname colname], colis, indis) := by
  simp [handleLocalShard, hplanned, hlocal]

/-- Witness for C6 at a concrete input. -/
theorem handleLocalShard_resigns_witness :
    plannedLeaderOf (VValue.vobj [("s1", .varr [.vstr "_A"])]) "s1" = UNDERSCORE ++ "A" ∧
    getStrD (VValue.vobj [(LEADER, .vstr "")]) LEADER = "" ∧
    handleLocalShard "d" "s1" (.vobj [(LEADER, .vstr "")])
        (.vobj [("s1", .varr [.vstr "_A"])]) ["s1"] ["s1/1"] "A"
      = ([resignShardLeadershipAction "d" "s1"], ["s1"], ["s1/1"]) :=
  ⟨by decide, by decide,
   handleLocalShard_resigns "d" "s1" (.vobj [(LEADER, .vstr "")])
     (.vobj [("s1", .varr [.vstr "_A"])]) ["s1"] ["s1/1"] "A" (by decide) (by decide)⟩

/-! ### C8 — degradation on storage-lookup failure -/

/-- C8: on lookup failure the claim states the error branch never
dereferences the failed lookup and reporting skips the entity and continues.
The part_001 revision behaves exactly so: `assembleLocalCollectioInfo`
returns the empty object, the shard contributes no report write, and
`reportInCurrent` still produces the write for the next, resolvable shard.
The older revision (`src/arangod/Cluster/Maintenance.cpp:439` resp. `:461`)
merely logs and then dereferences the null `vocbase` resp. `collection`
pointer, modelled as the crash outcome `Except.error ()`, which also aborts
its `reportInCurrent`. -/
theorem lookupFailure_skips_in_part001_but_crashes_old_revision :
    assembleLocalCollectioInfo engNone lshard1 "d" "s1" "A" = .vobj [] ∧
    reportShardInCurrent engNone cur8 "d" "A" "s1" lshard1 = [] ∧
    reportInCurrent engPartial (.vobj []) cur8 local8 "A"
      = [(CURRENT_COLLECTIONS ++ "d" ++ "/" ++ "c2" ++ "/" ++ "s2",
          setOp (.vobj [(ERROR, .vbool false), (ERROR_MESSAGE, .vstr ""), (ERROR_NUM, .vnum 0),
                        (INDEXES, .varr []),
                        (SERVERS, .varr [.vstr "A", .vstr "B"])]))] ∧
    OldRev.assembleLocalCollectioInfo engNone lshard1 "d" "s1" "A" = .error () ∧
    OldRev.reportInCurrent engPartial (.vobj []) cur8 local8 "A" = .error () :=
  ⟨by decide, by decide, by decide, rfl, rfl⟩

/-! ### C10 — one-directional equivalence check of the Current reporter -/

/-- C10: `equivalent` is a subset check, not symmetric equality: it returns
true whenever every key of the local snapshot maps to a normalized-equal
value in the current entry, extra keys of the current entry notwithstanding;
consequently a leader shard whose existing Current entry subsumes the
freshly assembled snapshot produces no set report operation. -/
theorem equivalent_subset_no_report :
    (∀ (fields : List (String × VValue)) (current : VValue),
      (∀ kv ∈ fields, normEqO (some kv.2) (getKey current kv.1) = true) →
      equivalent (.vobj fields) current = true) ∧
    (∀ (eng : StorageEngine) (cur : VValue) (dbName serverId shName : String)
       (shSlice : VValue),
      getStrD shSlice LEADER = "" →
      hasPath cur [COLLECTIONS, dbName, getStrD shSlice PLAN_ID, shName] = true →
      equivalent (assembleLocalCollectioInfo eng shSlice dbName shName serverId)
        (getPathD cur [COLLECTIONS, dbName, getStrD shSlice PLAN_ID, shName]) = true →
      reportShardInCurrent eng cur dbName serverId shName shSlice = []) := by
  constructor
  · intro fields current h
    simp only [equivalent, objFields, List.all_eq_true]
    intro kv hkv
    exact h kv hkv
  · intro eng cur dbName serverId shName shSlice hl hin heq
    simp only [reportShardInCurrent, hl, if_pos rfl]
    by_cases hempty : isEmptyObj (assembleLocalCollectioInfo eng shSlice dbName shName serverId) = true
    · simp [hempty]
    · simp [hempty, hin, heq]

/-- Witness for C10: a current entry that is a strict superset of the local
snapshot (extra key `"extra"`) passes the `equivalent` check, and a leader
shard in exactly that situation emits no report write. -/
theorem equivalent_subset_no_report_witness :
    equivalent (.vobj [(ERROR, .vbool false)])
      (.vobj [(ERROR, .vbool false), ("extra", .vnum 7)]) = true ∧
    reportShardInCurrent engAll
      (.vobj [(COLLECTIONS, .vobj [("d", .vobj [("c1", .vobj [("s1",
        .vobj [(ERROR, .vbool false), (ERROR_MESSAGE, .vstr ""), (ERROR_NUM, .vnum 0),
               (INDEXES, .varr []), (SERVERS, .varr [.vstr "A"]),
               ("extra", .vnum 7)])])])])])
      "d" "A" "s1" (.vobj [(LEADER, .vstr ""), (PLAN_ID, .vstr "c1")]) = [] :=
  ⟨equivalent_subset_no_report.1 [(ERROR, .vbool false)]
     (.vobj [(ERROR, .vbool false), ("extra", .vnum 7)]) (by decide),
   equivalent_subset_no_report.2 engAll
     (.vobj [(COLLECTIONS, .vobj [("d", .vobj [("c1", .vobj [("s1",
       .vobj [(ERROR, .vbool false), (ERROR_MESSAGE, .vstr ""), (ERROR_NUM, .vnum 0),
              (INDEXES, .varr []), (SERVERS, .varr [.vstr "A"]),
              ("extra", .vnum 7)])])])])])
     "d" "A" "s1" (.vobj [(LEADER, .vstr ""), (PLAN_ID, .vstr "c1")])
     (by decide) (by decide) (by decide)⟩

/-! ### C3 — field lists of indexes are compared order-sensitively -/

/-- C3 counterexample: the claim states field lists are compared as sets, so
a local hash index on `[y, x]` should suppress a planned hash index on
`[x, y]`.  `VPackNormalizedCompare::equals` compares arrays element-wise in
order, so the permuted local index does **not** match and the planned index
is emitted into the difference (an `EnsureIndex` would result). -/
theorem compareIndexes_permutation_emitted :
    compareIndexes "s1" (.varr [hashIdx "1" ["x", "y"]])
        (.varr [hashIdx "2" ["y", "x"]]) []
      = ([hashIdx "1" ["x", "y"]], ["s1/1"]) ∧
    normEq (.varr [.vstr "x", .vstr "y"]) (.varr [.vstr "y", .vstr "x"]) = false := by
  decide

/-- Membership in the local index scan does suppress emission: helper
direction of the amended C3 characterization. -/
theorem compareIndexesList_not_mem_of_found (shname : String) (local_ : VValue)
    (p : VValue)
    (hfound : (isArr local_ &&
      (arrElems local_).any (lindexMatches (getKey p FIELDS) (getStrD p TYPE))) = true) :
    ∀ (ps : List VValue) (indis : List String),
      p ∉ (compareIndexesList shname local_ ps indis).1 := by
  intro ps
  induction ps with
  | nil => intro indis; simp [compareIndexesList]
  | cons q rest ih =>
    intro indis
    simp only [compareIndexesList]
    by_cases hty : getStrD q TYPE = PRIMARY ∨ getStrD q TYPE = EDGE
    · simpa [hty] using ih _
    · simp only [hty, if_false]
      by_cases hf : (isArr local_ &&
          (arrElems local_).any (lindexMatches (getKey q FIELDS) (getStrD q TYPE))) = true
      · simpa [hf] using ih _
      · simp only [hf]
        simp only [Bool.false_eq_true, if_false, List.mem_cons, not_or]
        refine ⟨?_, ih _⟩
        intro hpq
        rw [hpq] at hfound
        exact hf hfound

/-- Non-membership forces a local match: helper direction of the amended C3
characterization. -/
theorem compareIndexesList_found_of_not_mem (shname : String) (local_ : VValue)
    (p : VValue)
    (hty : ¬(getStrD p TYPE = PRIMARY ∨ getStrD p TYPE = EDGE)) :
    ∀ (ps : List VValue) (indis : List String), p ∈ ps →
      p ∉ (compareIndexesList shname local_ ps indis).1 →
      (isArr local_ &&
        (arrElems local_).any (lindexMatches (getKey p FIELDS) (getStrD p TYPE))) = true := by
  intro ps
  induction ps with
  | nil => intro indis h; simp at h
  | cons q rest ih =>
    intro indis hmem hnot
    simp only [compareIndexesList] at hnot
    by_cases hqty : getStrD q TYPE = PRIMARY ∨ getStrD q TYPE = EDGE
    · rcases List.mem_cons.1 hmem with hpq | hrest
      · subst hpq; exact absurd hqty hty
      · rw [if_pos hqty] at hnot
        exact ih _ hrest hnot
    · rw [if_neg hqty] at hnot
      by_cases hf : (isArr local_ &&
          (arrElems local_).any (lindexMatches (getKey q FIELDS) (getStrD q TYPE))) = true
      · rcases List.mem_cons.1 hmem with hpq | hrest
        · subst hpq; exact hf
        · simp only [hf, if_pos rfl] at hnot
          exact ih _ hrest hnot
      · simp only [hf, Bool.false_eq_true, if_false, List.mem_cons, not_or] at hnot
        rcases List.mem_cons.1 hmem with hpq | hrest
        · exact absurd hpq hnot.1
        · exact ih _ hrest hnot.2

/-- C3 amended: for a planned, non-primary/edge index, `compareIndexes`
leaves it out of the difference (no `EnsureIndex`) **iff** the local index
array contains a non-primary/edge index of the same type whose field list is
normalized-equal to the planned one — an order-sensitive, element-wise array
comparison, not the order-independent set comparison the claim states. -/
theorem compareIndexes_not_emitted_iff (shname : String) (plan local_ : VValue)
    (indis : List String) (p : VValue)
    (hmem : p ∈ arrElems plan)
    (hty : ¬(getStrD p TYPE = PRIMARY ∨ getStrD p TYPE = EDGE)) :
    p ∉ (compareIndexes shname plan local_ indis).1 ↔
      (isArr local_ &&
        (arrElems local_).any (lindexMatches (getKey p FIELDS) (getStrD p TYPE))) = true := by
  cases plan with
  | varr ps =>
    constructor
    · exact compareIndexesList_found_of_not_mem shname local_ p hty ps indis hmem
    · intro hfound
      exact compareIndexesList_not_mem_of_found shname local_ p hfound ps indis
  | vnull => simp [arrElems] at hmem
  | vbool b => simp [arrElems] at hmem
  | vnum n => simp [arrElems] at hmem
  | vstr s => simp [arrElems] at hmem
  | vobj fs => simp [arrElems] at hmem

/-- Witness for the amended C3 theorem: a local hash index with the same
field list in the same order suppresses the planned one. -/
theorem compareIndexes_not_emitted_iff_witness :
    hashIdx "1" ["x", "y"] ∈ arrElems (.varr [hashIdx "1" ["x", "y"]]) ∧
    (hashIdx "1" ["x", "y"] ∉
      (compareIndexes "s1" (.varr [hashIdx "1" ["x", "y"]])
        (.varr [hashIdx "2" ["x", "y"]]) []).1 ↔
      (isArr (VValue.varr [hashIdx "2" ["x", "y"]]) &&
        (arrElems (VValue.varr [hashIdx "2" ["x", "y"]])).any
          (lindexMatches (getKey (hashIdx "1" ["x", "y"]) FIELDS)
            (getStrD (hashIdx "1" ["x", "y"]) TYPE))) = true) :=
  ⟨by decide,
   compareIndexes_not_emitted_iff "s1" (.varr [hashIdx "1" ["x", "y"]])
     (.varr [hashIdx "2" ["x", "y"]]) [] (hashIdx "1" ["x", "y"])
     (by decide) (by decide)⟩

/-! ### C4 — repeated matches of a shard in the Plan pass -/

/-- Plan fixture in which shard `s` of collection `c` lists server `A`
twice. -/
def planDupServers : VValue :=
  .vobj [("Databases", .vobj [("d", .vobj [])]),
         (COLLECTIONS, .vobj [("d", .vobj [("c",
           .vobj [(SHARDS, .vobj [("s", .varr [.vstr "A", .vstr "A"])])])])])]

/-- The same Plan with `A` listed once. -/
def planOneServer : VValue :=
  .vobj [("Databases", .vobj [("d", .vobj [])]),
         (COLLECTIONS, .vobj [("d", .vobj [("c",
           .vobj [(SHARDS, .vobj [("s", .varr [.vstr "A"])])])])])]

/-- Local fixture: the database exists, the shard does not. -/
def localDbOnly : VValue := .vobj [("d", .vobj [])]

/-- C4 counterexample: the claim states `diffPlanLocal` emits the same
actions whether the node's id appears once or twice in a shard's server
list, the duplication being absorbed by the shard-membership set.  With `A`
listed twice and the shard absent locally the action list contains the
`CreateCollection` action **twice**; only the membership set absorbs the
duplication. -/
theorem diffPlanLocal_duplicate_server_duplicates_actions :
    diffPlanLocal planDupServers localDbOnly "A"
      = [createCollectionAction "d" "c" "s" ""
           (createProps (.vobj [(SHARDS, .vobj [("s", .varr [.vstr "A", .vstr "A"])])])),
         createCollectionAction "d" "c" "s" ""
           (createProps (.vobj [(SHARDS, .vobj [("s", .varr [.vstr "A", .vstr "A"])])]))] ∧
    diffPlanLocal planOneServer localDbOnly "A"
      = [createCollectionAction "d" "c" "s" ""
           (createProps (.vobj [(SHARDS, .vobj [("s", .varr [.vstr "A"])])]))] := by
  decide

/-- The difference array computed by `compareIndexes` does not depend on the
accumulated index-membership set (which is only inserted into). -/
theorem compareIndexesList_fst_const (shname : String) (local_ : VValue)
    (ps : List VValue) :
    ∀ indis : List String,
      (compareIndexesList shname local_ ps indis).1
        = (compareIndexesList shname local_ ps []).1 := by
  have key : ∀ indis indis' : List String,
      (compareIndexesList shname local_ ps indis).1
        = (compareIndexesList shname local_ ps indis').1 := by
    induction ps with
    | nil => intro indis indis'; simp [compareIndexesList]
    | cons q rest ih =>
      intro indis indis'
      simp only [compareIndexesList]
      by_cases hty : getStrD q TYPE = PRIMARY ∨ getStrD q TYPE = EDGE
      · simpa [hty] using ih _ _
      · simp only [hty, if_false]
        rw [ih (setInsert indis (shname ++ "/" ++ getStrD q ID))
              (setInsert indis' (shname ++ "/" ++ getStrD q ID))]
  intro indis
  exact key indis []

theorem compareIndexes_fst_const (shname : String) (plan local_ : VValue)
    (indis : List String) :
    (compareIndexes shname plan local_ indis).1
      = (compareIndexes shname plan local_ []).1 := by
  cases plan with
  | varr ps => simpa [compareIndexes] using compareIndexesList_fst_const shname local_ ps indis
  | vnull => simp [compareIndexes]
  | vbool b => simp [compareIndexes]
  | vnum n => simp [compareIndexes]
  | vstr s => simp [compareIndexes]
  | vobj fs => simp [compareIndexes]

/-- `handlePlanShard` only reads its first argument through `copyString`. -/
theorem handlePlanShard_asStr (db cprops ldb : VValue)
    (dbname colname shname serverId leaderId : String)
    (colis indis : List String) :
    handlePlanShard db cprops ldb dbname colname shname serverId leaderId colis indis
      = handlePlanShard (.vstr (asStr db)) cprops ldb dbname colname shname serverId
          leaderId colis indis := by
  simp only [handlePlanShard, show asStr (VValue.vstr (asStr db)) = asStr db from rfl]

/-- The actions emitted by `handlePlanShard` do not depend on the two
membership sets, which it only inserts into. -/
theorem handlePlanShard_fst_const (db cprops ldb : VValue)
    (dbname colname shname serverId leaderId : String)
    (colis indis : List String) :
    (handlePlanShard db cprops ldb dbname colname shname serverId leaderId colis indis).1
      = (handlePlanShard db cprops ldb dbname colname shname serverId leaderId [] []).1 := by
  simp only [handlePlanShard]
  by_cases hdb : asStr db = serverId
  · simp only [hdb, if_pos rfl]
    by_cases hl : hasKeyB ldb shname = true
    · simp only [hl, if_true]
      by_cases hix : hasKeyB cprops INDEXES = true
      · simp only [hix, if_true]
        rw [compareIndexes_fst_const shname (getD cprops INDEXES)
              (getD (getD ldb shname) INDEXES) indis]
      · simp [hix]
    · simp [hl]
  · simp [hdb]

/-- `setInsert` is idempotent. -/
theorem setInsert_idem (s : List String) (x : String) :
    setInsert (setInsert s x) x = setInsert s x := by
  simp only [setInsert]
  by_cases h : x ∈ s
  · simp [h]
  · simp [h]

/-- C4 amended: processing a planned shard's server list emits the per-match
action block once **per occurrence** of this node's id (so `n` occurrences
yield `n` copies of the `CreateCollection`/`UpdateCollection`/`EnsureIndex`
actions), while the shard-membership set absorbs the duplication: it ends up
with the single inserted shard name whenever at least one entry matches. -/
theorem planServersLoop_replicates (cprops ldb : VValue)
    (dbname colname shname serverId leaderId : String) :
    ∀ (vs : List VValue) (colis indis : List String),
      (planServersLoop cprops ldb dbname colname shname serverId leaderId vs colis indis).1
        = (List.replicate (vs.countP (fun v => asStr v == serverId))
            (handlePlanShard (.vstr serverId) cprops ldb dbname colname shname
              serverId leaderId [] []).1).flatten ∧
      (planServersLoop cprops ldb dbname colname shname serverId leaderId vs colis indis).2.1
        = (if vs.any (fun v => asStr v == serverId) then setInsert colis shname else colis) := by
  intro vs
  induction vs with
  | nil => intro colis indis; simp [planServersLoop]
  | cons v rest ih =>
    intro colis indis
    simp only [planServersLoop]
    by_cases hv : asStr v = serverId
    · have hact : (handlePlanShard v cprops ldb dbname colname shname serverId leaderId
          colis indis).1
          = (handlePlanShard (.vstr serverId) cprops ldb dbname colname shname serverId
              leaderId [] []).1 := by
        rw [handlePlanShard_fst_const, handlePlanShard_asStr, hv]
      have hcol : (handlePlanShard v cprops ldb dbname colname shname serverId leaderId
          colis indis).2.1 = setInsert colis shname := by
        simp only [handlePlanShard, hv, if_pos rfl]
        by_cases hl : hasKeyB ldb shname = true <;> simp [hl]
      constructor
      · rw [hact, hcol]
        rw [(ih _ _).1]
        have hcount : (v :: rest).countP (fun v => asStr v == serverId)
            = rest.countP (fun v => asStr v == serverId) + 1 := by
          simp [List.countP_cons, hv]
        rw [hcount, List.replicate_succ, List.flatten_cons]
      · rw [hcol, (ih _ _).2]
        have hv' : (v :: rest).any (fun v => asStr v == serverId) = true := by
          simp [hv]
        rw [if_pos hv']
        by_cases hr : rest.any (fun v => asStr v == serverId) = true
        · rw [if_pos hr, setInsert_idem]
        · simp only [hr, Bool.false_eq_true, if_false]
    · have hskip : handlePlanShard v cprops ldb dbname colname shname serverId leaderId
          colis indis = ([], colis, indis) := by
        simp [handlePlanShard, hv]
      rw [hskip]
      constructor
      · have hcount : (v :: rest).countP (fun v => asStr v == serverId)
            = rest.countP (fun v => asStr v == serverId) := by
          simp [List.countP_cons, hv]
        rw [hcount]
        simpa using (ih colis indis).1
      · have hany : (v :: rest).any (fun v => asStr v == serverId)
            = rest.any (fun v => asStr v == serverId) := by
          simp [hv]
        rw [hany]
        simpa using (ih colis indis).2

/-! ### C9 — duplicate `CreateDatabase` emission -/

theorem createDatabaseAction_inj {a b : String} :
    createDatabaseAction a = createDatabaseAction b ↔ a = b := by
  simp [createDatabaseAction]

/-- No `handlePlanShard` output is a `CreateDatabase` action. -/
theorem handlePlanShard_count_createDb (db cprops ldb : VValue)
    (n cn s sid lid : String) (colis indis : List String) (dbname : String) :
    ((handlePlanShard db cprops ldb n cn s sid lid colis indis).1).count
      (createDatabaseAction dbname) = 0 := by
  rw [List.count_eq_zero]
  intro hmem
  simp only [handlePlanShard] at hmem
  by_cases hdb : asStr db = sid
  · simp only [hdb, if_pos rfl] at hmem
    by_cases hl : hasKeyB ldb s = true
    · simp only [hl, if_true, List.mem_append] at hmem
      rcases hmem with hmem | hmem
      · by_cases hcnd : ¬(compareRelevantProps cprops (getD ldb s)).isEmpty = true ∨
            (getStrD (getD ldb s) LEADER = "") ≠ (sid = lid)
        · rw [if_pos hcnd] at hmem
          simp only [List.mem_singleton] at hmem
          simp [updateCollectionAction, createDatabaseAction] at hmem
        · rw [if_neg hcnd] at hmem
          simp at hmem
      · by_cases hix : hasKeyB cprops INDEXES = true
        · simp only [hix, if_true, List.mem_map] at hmem
          obtain ⟨x, -, hx⟩ := hmem
          simp [ensureIndexAction, createDatabaseAction] at hx
        · simp [hix] at hmem
    · simp only [hl, Bool.false_eq_true, if_false, List.mem_singleton] at hmem
      simp [createCollectionAction, createDatabaseAction] at hmem
  · simp [hdb] at hmem

theorem planServersLoop_count_createDb (cprops ldb : VValue)
    (n cn s sid lid dbname : String) :
    ∀ (vs : List VValue) (colis indis : List String),
      ((planServersLoop cprops ldb n cn s sid lid vs colis indis).1).count
        (createDatabaseAction dbname) = 0 := by
  intro vs
  induction vs with
  | nil => intro colis indis; simp [planServersLoop]
  | cons v rest ih =>
    intro colis indis
    simp only [planServersLoop, List.count_append]
    rw [handlePlanShard_count_createDb, ih]

theorem planShardsLoop_count_createDb (cprops ldb : VValue) (n cn sid dbname : String) :
    ∀ (shs : List (String × VValue)) (colis indis : List String),
      ((planShardsLoop cprops ldb n cn sid shs colis indis).1).count
        (createDatabaseAction dbname) = 0 := by
  intro shs
  induction shs with
  | nil => intro colis indis; simp [planShardsLoop]
  | cons sh rest ih =>
    intro colis indis
    obtain ⟨shname, sv⟩ := sh
    simp only [planShardsLoop]
    by_cases ha : isArr sv = true
    · simp only [ha, if_true, List.count_append]
      rw [planServersLoop_count_createDb, ih]
    · simp only [ha, Bool.false_eq_true, if_false]
      exact ih _ _

theorem planColsLoop_count_createDb (ldb : VValue) (n sid dbname : String) :
    ∀ (cols : List (String × VValue)) (colis indis : List String),
      ((planColsLoop ldb n sid cols colis indis).1).count
        (createDatabaseAction dbname) = 0 := by
  intro cols
  induction cols with
  | nil => intro colis indis; simp [planColsLoop]
  | cons col rest ih =>
    intro colis indis
    obtain ⟨colname, cprops⟩ := col
    simp only [planColsLoop, List.count_append]
    rw [planShardsLoop_count_createDb, ih]

/-- The Plan pass over `Collections` contributes one `CreateDatabase` per
occurrence of the database key, when the database is missing locally. -/
theorem planDbsLoop_count_createDb (local_ : VValue) (sid dbname : String)
    (hmiss : hasKeyB local_ dbname = false) :
    ∀ (dbs : List (String × VValue)) (colis indis : List String),
      ((planDbsLoop local_ sid dbs colis indis).1).count (createDatabaseAction dbname)
        = (dbs.map Prod.fst).count dbname := by
  intro dbs
  induction dbs with
  | nil => intro colis indis; simp [planDbsLoop]
  | cons db rest ih =>
    intro colis indis
    obtain ⟨k, pdb⟩ := db
    simp only [planDbsLoop]
    by_cases hk : hasKeyB local_ k = true
    · have hkd : k ≠ dbname := by
        intro he; rw [he, hmiss] at hk; exact Bool.false_ne_true hk
      simp only [hk, if_true, List.count_append]
      rw [planColsLoop_count_createDb, ih]
      simp [List.count_cons, hkd]
    · simp only [hk, Bool.false_eq_true, if_false]
      by_cases hkd : k = dbname
      · subst hkd
        simp [List.count_cons, ih _ _]
      · simp only [List.count_cons]
        rw [ih _ _]
        have : ¬(createDatabaseAction k = createDatabaseAction dbname) := by
          simpa [createDatabaseAction_inj] using hkd
        simp [List.count_cons, hkd, this]

/-- No `handleLocalShard` output is a `CreateDatabase` action. -/
theorem handleLocalShard_count_createDb (dn cn : String) (cprops shardMap : VValue)
    (colis indis : List String) (sid dbname : String) :
    ((handleLocalShard dn cn cprops shardMap colis indis sid).1).count
      (createDatabaseAction dbname) = 0 := by
  rw [List.count_eq_zero]
  intro hmem
  simp only [handleLocalShard] at hmem
  by_cases hres : plannedLeaderOf shardMap cn = UNDERSCORE ++ sid ∧ getStrD cprops LEADER = ""
  · rw [if_pos hres] at hmem
    simp [resignShardLeadershipAction, createDatabaseAction] at hmem
  · simp only [if_neg hres] at hmem
    by_cases hdrop : colis.isEmpty = true ∨ cn ∉ colis
    · simp only [if_pos hdrop, List.mem_singleton] at hmem
      simp [dropCollectionAction, createDatabaseAction] at hmem
    · simp only [if_neg hdrop] at hmem
      revert hmem
      generalize (if hasKeyB cprops INDEXES = true ∧ isArr (getD cprops INDEXES) = true
        then arrElems (getD cprops INDEXES) else []) = ixs
      induction ixs generalizing indis with
      | nil => intro hmem; simp [dropIndexLoop] at hmem
      | cons ix rest ihx =>
        intro hmem
        simp only [dropIndexLoop] at hmem
        by_cases hty : getStrD ix TYPE ≠ PRIMARY ∧ getStrD ix TYPE ≠ EDGE
        · simp only [if_pos hty] at hmem
          by_cases hin : (cn ++ "/" ++ getStrD ix ID) ∈ indis
          · rw [if_pos hin] at hmem
            exact ihx _ hmem
          · rw [if_neg hin] at hmem
            simp only [List.mem_cons] at hmem
            rcases hmem with hmem | hmem
            · simp [dropIndexAction, createDatabaseAction] at hmem
            · exact ihx _ hmem
        · rw [if_neg hty] at hmem
          exact ihx _ hmem

theorem localShardsLoop_count_createDb (dn : String) (shardMap : VValue) (sid dbname : String) :
    ∀ (shs : List (String × VValue)) (colis indis : List String),
      ((localShardsLoop dn shardMap sid shs colis indis).1).count
        (createDatabaseAction dbname) = 0 := by
  intro shs
  induction shs with
  | nil => intro colis indis; simp [localShardsLoop]
  | cons sh rest ih =>
    intro colis indis
    obtain ⟨shName, col⟩ := sh
    simp only [localShardsLoop]
    by_cases hf : shName.front ≠ '_'
    · simp only [if_pos hf, List.count_append]
      rw [handleLocalShard_count_createDb, ih]
    · simp only [if_neg hf]
      exact ih _ _

theorem localDbsLoop_count_createDb (pdbs shardMap : VValue) (sid dbname : String) :
    ∀ (dbs : List (String × VValue)) (colis indis : List String),
      ((localDbsLoop pdbs shardMap sid dbs colis indis).1).count
        (createDatabaseAction dbname) = 0 := by
  intro dbs
  induction dbs with
  | nil => intro colis indis; simp [localDbsLoop]
  | cons db rest ih =>
    intro colis indis
    obtain ⟨k, dbv⟩ := db
    simp only [localDbsLoop]
    by_cases hk : hasKeyB pdbs k = true
    · simp only [hk, if_true, List.count_append]
      rw [localShardsLoop_count_createDb, ih]
    · simp only [hk, Bool.false_eq_true, if_false]
      exact ih _ _

theorem databasesPass_count_createDb (local_ : VValue) (dbname : String)
    (hmiss : hasKeyB local_ dbname = false) :
    ∀ l : List (String × VValue),
      ((l.filterMap (fun pdb =>
        if ¬hasKeyB local_ pdb.1 then some (createDatabaseAction pdb.1) else none)).count
          (createDatabaseAction dbname)) = (l.map Prod.fst).count dbname := by
  intro l
  induction l with
  | nil => simp
  | cons p rest ih =>
    obtain ⟨k, v⟩ := p
    by_cases hk : hasKeyB local_ k = true
    · have hkd : k ≠ dbname := by
        intro he; rw [he, hmiss] at hk; exact Bool.false_ne_true hk
      have hc : ¬¬hasKeyB local_ k = true := not_not_intro hk
      simp only [List.filterMap_cons, if_neg hc, List.map_cons, List.count_cons]
      rw [ih]
      simp [hkd]
    · have hk' : ¬hasKeyB local_ k = true := hk
      simp only [List.filterMap_cons, if_pos hk', List.map_cons, List.count_cons]
      rw [ih]
      by_cases hkd : k = dbname
      · subst hkd; simp
      · have hne : ¬(createDatabaseAction k = createDatabaseAction dbname) := by
          simpa [createDatabaseAction_inj] using hkd
        simp [hkd, hne]

theorem dropPass_count_createDb (plan : VValue) (dbname : String) :
    ∀ l : List (String × VValue),
      ((l.filterMap (fun ldb =>
        if ¬hasPath plan ["Databases", ldb.1] then some (dropDatabaseAction ldb.1) else none)).count
          (createDatabaseAction dbname)) = 0 := by
  intro l
  induction l with
  | nil => simp
  | cons p rest ih =>
    obtain ⟨k, v⟩ := p
    by_cases hk : hasPath plan ["Databases", k] = true
    · have hc : ¬¬hasPath plan ["Databases", k] = true := not_not_intro hk
      simp only [List.filterMap_cons, if_neg hc]
      exact ih
    · have hk' : ¬hasPath plan ["Databases", k] = true := hk
      simp only [List.filterMap_cons, if_pos hk', List.count_cons]
      rw [ih]
      have hne : ¬(dropDatabaseAction k = createDatabaseAction dbname) := by
        simp [dropDatabaseAction, createDatabaseAction]
      simp [hne]

/-- C9: a database named both under Plan's `Databases` and under Plan's
`Collections` but absent from Local receives **two** `CreateDatabase`
actions in one `diffPlanLocal` pass — one from the Databases loop, one from
the Collections loop. -/
theorem diffPlanLocal_createDatabase_twice (plan local_ : VValue) (serverId dbname : String)
    (h1 : ((objFields (getD plan "Databases")).map Prod.fst).count dbname = 1)
    (h2 : ((objFields (getD plan COLLECTIONS)).map Prod.fst).count dbname = 1)
    (h3 : hasKeyB local_ dbname = false) :
    (diffPlanLocal plan local_ serverId).count (createDatabaseAction dbname) = 2 := by
  simp only [diffPlanLocal, List.count_append]
  rw [databasesPass_count_createDb local_ dbname h3, h1]
  rw [dropPass_count_createDb]
  rw [planDbsLoop_count_createDb local_ serverId dbname h3, h2]
  rw [localDbsLoop_count_createDb]

/-- Witness for C9 on a concrete Plan. -/
theorem diffPlanLocal_createDatabase_twice_witness :
    ((objFields (getD (VValue.vobj [("Databases", .vobj [("d", .vnull)]),
        (COLLECTIONS, .vobj [("d", .vobj [])])]) "Databases")).map Prod.fst).count "d" = 1 ∧
    (diffPlanLocal (.vobj [("Databases", .vobj [("d", .vnull)]),
        (COLLECTIONS, .vobj [("d", .vobj [])])]) (.vobj []) "A").count
      (createDatabaseAction "d") = 2 :=
  ⟨by decide,
   diffPlanLocal_createDatabase_twice (.vobj [("Databases", .vobj [("d", .vnull)]),
       (COLLECTIONS, .vobj [("d", .vobj [])])]) (.vobj []) "A" "d"
     (by decide) (by decide) (by decide)⟩

/-! ### C7 — SynchronizeShard emission -/

/-- Plan fixture: shard `s` of collection `c` in database `d`, planned
servers `[A, B]`. -/
def syncPlan : VValue :=
  .vobj [(COLLECTIONS, .vobj [("d", .vobj [("c",
    .vobj [(SHARDS, .vobj [("s", .varr [.vstr "A", .vstr "B"])])])])])]

/-- Current fixture: the shard entry exists but carries no `servers` list. -/
def syncCurNoServers : VValue :=
  .vobj [(COLLECTIONS, .vobj [("d", .vobj [("c", .vobj [("s", .vobj [])])])])]

/-- Local fixture: database `d` holds shard `s`. -/
def syncLocal : VValue := .vobj [("d", .vobj [("s", .vobj [])])]

/-- C7 counterexample: the shard is present in Plan's and Current's
collections and in Local, node `B` is at position 1 > 0 of the planned
server list and at no positive position of any Current server list (Current
carries none), so the claim demands exactly one `SynchronizeShard` action —
but `syncReplicatedShardsWithLeaders` skips the shard because the `servers`
substructure is missing in Current, and emits nothing. -/
theorem syncReplicatedShards_missing_servers_skipped :
    hasPath (getD syncPlan COLLECTIONS) ["d", "c", SHARDS, "s"] = true ∧
    hasPath syncLocal ["d", "s"] = true ∧
    hasPath (getD syncCurNoServers COLLECTIONS) ["d", "c", "s"] = true ∧
    indexOfStr (getPathD (getD syncPlan COLLECTIONS) ["d", "c", SHARDS, "s"]) "B" > 0 ∧
    getPath (getD syncCurNoServers COLLECTIONS) ["d", "c", "s", SERVERS] = none ∧
    syncReplicatedShardsWithLeaders syncPlan syncCurNoServers syncLocal "B" = [] := by
  decide

/-- Does an action name `SynchronizeShard` for precisely this
database/collection/shard triple?  (Its fifth parameter is the leader.) -/
def isSyncFor (d c s : String) (a : ActionDescription) : Bool :=
  a.params.take 4
    == [(NAME, "SynchronizeShard"), (DATABASE, d), (COLLECTION, c), (SHARD, s)]

theorem flatMap_nil_of {α β : Type} (l : List α) (f : α → List β)
    (h : ∀ x ∈ l, f x = []) : l.flatMap f = [] := by
  induction l with
  | nil => rfl
  | cons a rest ih =>
    rw [List.flatMap_cons, h a (List.mem_cons_self a rest), List.nil_append]
    exact ih (fun x hx => h x (List.mem_cons_of_mem a hx))

theorem filter_flatMap {α β : Type} (l : List α) (f : α → List β) (p : β → Bool) :
    (l.flatMap f).filter p = l.flatMap (fun x => (f x).filter p) := by
  induction l with
  | nil => rfl
  | cons a rest ih =>
    rw [List.flatMap_cons, List.flatMap_cons, List.filter_append, ih]

/-- `getKey` seen through `objFields`. -/
theorem getKey_eq_lookupF (v : VValue) (k : String) :
    getKey v k = lookupF (objFields v) k := by
  cases v <;> rfl

/-- A present path splits into a present head key and a present tail path. -/
theorem hasPath_cons_split (v : VValue) (k : String) (ks : List String)
    (h : hasPath v (k :: ks) = true) :
    hasKeyB v k = true ∧ hasPath (getD v k) ks = true := by
  simp only [hasPath, getPath] at h ⊢
  cases hg : getKey v k with
  | none => rw [hg] at h; simp at h
  | some w =>
    rw [hg] at h
    refine ⟨by simp [hasKeyB, hg], ?_⟩
    have hw : getD v k = w := by
      rw [show getD v k = (getKey v k).getD .vnull from rfl, hg]
      rfl
    rw [hw]
    exact h

/-- Extracting the unique matching key from a keyed loop: if `d` occurs once
among the keys and every other entry contributes nothing through the filter,
filtering the whole loop equals filtering the unique entry's contribution. -/
theorem filter_flatMap_unique (p : ActionDescription → Bool)
    (g : String → VValue → List ActionDescription) (d : String) (v : VValue) :
    ∀ l : List (String × VValue),
      lookupF l d = some v →
      (l.map Prod.fst).count d = 1 →
      (∀ k w, (k, w) ∈ l → k ≠ d → (g k w).filter p = []) →
      ((l.flatMap (fun e => g e.1 e.2)).filter p) = (g d v).filter p := by
  intro l
  induction l with
  | nil => intro hlk; simp [lookupF] at hlk
  | cons e rest ih =>
    intro hlk hcount hothers
    obtain ⟨k, w⟩ := e
    rw [filter_flatMap]
    by_cases hk : k = d
    · subst hk
      have hv : w = v := by simpa [lookupF] using hlk
      subst hv
      have hrest : (rest.map Prod.fst).count k = 0 := by
        simp only [List.map_cons, List.count_cons, beq_self_eq_true, if_true] at hcount
        omega
      have hnil : rest.flatMap (fun e => (g e.1 e.2).filter p) = [] := by
        apply flatMap_nil_of
        intro x hx
        apply hothers x.1 x.2 (List.mem_cons_of_mem _ hx)
        intro hxk
        rw [List.count_eq_zero] at hrest
        exact hrest (by
          rw [← hxk]
          exact List.mem_map_of_mem Prod.fst hx)
      rw [List.flatMap_cons, hnil, List.append_nil]
    · have hlk' : lookupF rest d = some v := by
        simpa [lookupF, hk] using hlk
      have hcount' : (rest.map Prod.fst).count d = 1 := by
        simpa [List.map_cons, List.count_cons, hk] using hcount
      have hothers' : ∀ k' w', (k', w') ∈ rest → k' ≠ d → (g k' w').filter p = [] :=
        fun k' w' hm => hothers k' w' (List.mem_cons_of_mem _ hm)
      rw [List.flatMap_cons, hothers k w (List.mem_cons_self _ _) hk, List.nil_append]
      rw [← filter_flatMap]
      exact ih hlk' hcount' hothers'

/-- `syncShard` emits either nothing or the single `SynchronizeShard` action
for its own triple. -/
theorem syncShard_shape (pdbs cdbs local_ : VValue) (sid d c s : String) :
    syncShard pdbs cdbs local_ sid d c s = [] ∨
    ∃ ldr, syncShard pdbs cdbs local_ sid d c s = [synchronizeShardAction d c s ldr] := by
  unfold syncShard
  split
  · exact Or.inl rfl
  · split
    · exact Or.inl rfl
    · split
      · exact Or.inl rfl
      · split
        · exact Or.inl rfl
        · split
          · exact Or.inl rfl
          · split
            · exact Or.inl rfl
            · exact Or.inr ⟨_, rfl⟩

theorem isSyncFor_syncAction (d c s d' c' s' ldr : String) :
    isSyncFor d c s (synchronizeShardAction d' c' s' ldr) = true ↔
      (d' = d ∧ c' = c ∧ s' = s) := by
  simp [isSyncFor, synchronizeShardAction, List.take, Prod.ext_iff]

/-- A `syncShard` call for a different triple contributes nothing through
the filter. -/
theorem syncShard_filter_ne (pdbs cdbs local_ : VValue) (sid : String)
    {d c s d' c' s' : String} (hne : ¬(d' = d ∧ c' = c ∧ s' = s)) :
    (syncShard pdbs cdbs local_ sid d' c' s').filter (isSyncFor d c s) = [] := by
  rcases syncShard_shape pdbs cdbs local_ sid d' c' s' with hsh | ⟨ldr, hsh⟩
  · rw [hsh]; rfl
  · rw [hsh]
    have hfalse : isSyncFor d c s (synchronizeShardAction d' c' s' ldr) = false := by
      rw [Bool.eq_false_iff]
      intro htrue
      exact hne ((isSyncFor_syncAction d c s d' c' s' ldr).1 htrue)
    simp [List.filter, hfalse]

/-- `syncShard` output passes its own triple's filter unchanged. -/
theorem syncShard_filter_self (pdbs cdbs local_ : VValue) (sid d c s : String) :
    (syncShard pdbs cdbs local_ sid d c s).filter (isSyncFor d c s)
      = syncShard pdbs cdbs local_ sid d c s := by
  rcases syncShard_shape pdbs cdbs local_ sid d c s with hsh | ⟨ldr, hsh⟩
  · rw [hsh]; rfl
  · rw [hsh]
    have htrue : isSyncFor d c s (synchronizeShardAction d c s ldr) = true :=
      (isSyncFor_syncAction d c s d c s ldr).2 ⟨rfl, rfl, rfl⟩
    simp [List.filter, htrue]

theorem syncColBody_filter_ne (pdbs cdbs local_ : VValue) (sid : String)
    {d c s d' c' : String} (hne : ¬(d' = d ∧ c' = c)) (pcolv : VValue) :
    (syncColBody pdbs cdbs local_ sid d' c' pcolv).filter (isSyncFor d c s) = [] := by
  unfold syncColBody
  split
  · rw [filter_flatMap]
    apply flatMap_nil_of
    intro x hx
    exact syncShard_filter_ne pdbs cdbs local_ sid (fun hcontr => hne ⟨hcontr.1, hcontr.2.1⟩)
  · rfl

theorem syncDbBody_filter_ne (pdbs cdbs local_ : VValue) (sid : String)
    {d c s d' : String} (hne : d' ≠ d) (pdbv : VValue) :
    (syncDbBody pdbs cdbs local_ sid d' pdbv).filter (isSyncFor d c s) = [] := by
  unfold syncDbBody
  split
  · rw [filter_flatMap]
    apply flatMap_nil_of
    intro x hx
    exact syncColBody_filter_ne pdbs cdbs local_ sid (fun hcontr => hne hcontr.1) x.2
  · rfl

/-- C7 amended: for a shard present in Plan's collections (at the unique
keys `d`/`c`/`s`), present in Local and in Current's collections,
`syncReplicatedShardsWithLeaders` emits — over the whole pass — exactly the
actions of `syncShard` for that triple, namely: **one** `SynchronizeShard`
carrying the database, collection, shard and the planned leader (position 0
of the planned server list) iff Current's shard entry carries a `servers`
substructure, the node's position in the planned server list is strictly
positive, and its position in Current's server list is not; when the
`servers` substructure is missing in Current the shard is skipped (no
action), which the original claim did not allow for. -/
theorem syncReplicatedShards_characterization
    (plan current local_ : VValue) (serverId d c s : String)
    (pdbv pcolv pshv psrv : VValue)
    (hpd : getKey (getD plan COLLECTIONS) d = some pdbv)
    (hpc : getKey pdbv c = some pcolv)
    (hsh : getKey pcolv SHARDS = some pshv)
    (hps : getKey pshv s = some psrv)
    (hud : ((objFields (getD plan COLLECTIONS)).map Prod.fst).count d = 1)
    (huc : ((objFields pdbv).map Prod.fst).count c = 1)
    (hus : ((objFields pshv).map Prod.fst).count s = 1)
    (hl : hasPath local_ [d, s] = true)
    (hcur : hasPath (getD current COLLECTIONS) [d, c, s] = true) :
    (syncReplicatedShardsWithLeaders plan current local_ serverId).filter (isSyncFor d c s)
      = syncShard (getD plan COLLECTIONS) (getD current COLLECTIONS) local_ serverId d c s ∧
    syncShard (getD plan COLLECTIONS) (getD current COLLECTIONS) local_ serverId d c s
      = (match getPath (getD current COLLECTIONS) [d, c, s, SERVERS] with
         | some cservers =>
           if indexOfStr psrv serverId > 0 ∧ ¬(indexOfStr cservers serverId > 0) then
             [synchronizeShardAction d c s (asStr (firstElemD psrv))]
           else []
         | none => []) := by
  have hld : hasKeyB local_ d = true := (hasPath_cons_split local_ d [s] hl).1
  have hcd : hasKeyB (getD current COLLECTIONS) d = true :=
    (hasPath_cons_split (getD current COLLECTIONS) d [c, s] hcur).1
  have hcc : hasKeyB (getD (getD current COLLECTIONS) d) c = true :=
    (hasPath_cons_split (getD (getD current COLLECTIONS) d) c [s]
      (hasPath_cons_split (getD current COLLECTIONS) d [c, s] hcur).2).1
  constructor
  · -- filter the db loop down to the unique (d, c, s) contribution
    unfold syncReplicatedShardsWithLeaders
    rw [filter_flatMap_unique (isSyncFor d c s)
          (fun k w => syncDbBody (getD plan COLLECTIONS) (getD current COLLECTIONS)
            local_ serverId k w) d pdbv
          (objFields (getD plan COLLECTIONS))
          (by rw [← getKey_eq_lookupF]; exact hpd) hud
          (fun k w _ hk => syncDbBody_filter_ne _ _ _ _ hk w)]
    unfold syncDbBody
    rw [if_pos ⟨hld, hcd⟩]
    rw [filter_flatMap_unique (isSyncFor d c s)
          (fun k w => syncColBody (getD plan COLLECTIONS) (getD current COLLECTIONS)
            local_ serverId d k w) c pcolv
          (objFields pdbv)
          (by rw [← getKey_eq_lookupF]; exact hpc) huc
          (fun k w _ hk => syncColBody_filter_ne _ _ _ _
            (fun hcontr => hk hcontr.2) w)]
    unfold syncColBody
    rw [if_pos hcc]
    have hshv : getD pcolv SHARDS = pshv := by simp [getD, hsh]
    rw [hshv]
    rw [filter_flatMap_unique (isSyncFor d c s)
          (fun k _ => syncShard (getD plan COLLECTIONS) (getD current COLLECTIONS)
            local_ serverId d c k) s psrv
          (objFields pshv)
          (by rw [← getKey_eq_lookupF]; exact hps) hus
          (fun k w _ hk => syncShard_filter_ne _ _ _ _
            (fun hcontr => hk hcontr.2.2))]
    exact syncShard_filter_self _ _ _ _ _ _ _
  · -- evaluate syncShard for the triple itself
    have hppath : getPath (getD plan COLLECTIONS) [d, c, SHARDS, s] = some psrv := by
      simp [getPath, hpd, hpc, hsh, hps]
    unfold syncShard
    rw [if_neg (by simp [hl]), if_neg (by simp [hcur]), hppath]
    cases hcs : getPath (getD current COLLECTIONS) [d, c, s, SERVERS] with
    | none => rfl
    | some cservers =>
      simp only
      by_cases h1 : indexOfStr psrv serverId ≤ 0
      · rw [if_pos h1]
        have : ¬(indexOfStr psrv serverId > 0 ∧ ¬(indexOfStr cservers serverId > 0)) := by
          intro hcontr; omega
        rw [if_neg this]
      · rw [if_neg h1]
        by_cases h2 : indexOfStr cservers serverId > 0
        · rw [if_pos h2]
          have : ¬(indexOfStr psrv serverId > 0 ∧ ¬(indexOfStr cservers serverId > 0)) := by
            intro hcontr; exact hcontr.2 h2
          rw [if_neg this]
        · rw [if_neg h2]
          have : indexOfStr psrv serverId > 0 ∧ ¬(indexOfStr cservers serverId > 0) := by
            constructor
            · omega
            · exact h2
          rw [if_pos this]

/-- Witness for the amended C7 theorem, in the spec's scenario: Local on `B`
holds `s` with leader `A`, Current's server list is `[A]` — exactly one
`SynchronizeShard` naming leader `A` results. -/
theorem syncReplicatedShards_characterization_witness :
    getKey (getD syncPlan COLLECTIONS) "d"
      = some (.vobj [("c", .vobj [(SHARDS, .vobj [("s", .varr [.vstr "A", .vstr "B"])])])]) ∧
    (syncReplicatedShardsWithLeaders syncPlan
        (.vobj [(COLLECTIONS, .vobj [("d", .vobj [("c",
          .vobj [("s", .vobj [(SERVERS, .varr [.vstr "A"])])])])])])
        syncLocal "B").filter (isSyncFor "d" "c" "s")
      = syncShard (getD syncPlan COLLECTIONS)
          (getD (VValue.vobj [(COLLECTIONS, .vobj [("d", .vobj [("c",
            .vobj [("s", .vobj [(SERVERS, .varr [.vstr "A"])])])])])]) COLLECTIONS)
          syncLocal "B" "d" "c" "s" ∧
    syncShard (getD syncPlan COLLECTIONS)
        (getD (VValue.vobj [(COLLECTIONS, .vobj [("d", .vobj [("c",
          .vobj [("s", .vobj [(SERVERS, .varr [.vstr "A"])])])])])]) COLLECTIONS)
        syncLocal "B" "d" "c" "s"
      = [synchronizeShardAction "d" "c" "s" "A"] :=
  ⟨by decide,
   (syncReplicatedShards_characterization syncPlan
      (.vobj [(COLLECTIONS, .vobj [("d", .vobj [("c",
        .vobj [("s", .vobj [(SERVERS, .varr [.vstr "A"])])])])])])
      syncLocal "B" "d" "c" "s"
      (.vobj [("c", .vobj [(SHARDS, .vobj [("s", .varr [.vstr "A", .vstr "B"])])])])
      (.vobj [(SHARDS, .vobj [("s", .varr [.vstr "A", .vstr "B"])])])
      (.vobj [("s", .varr [.vstr "A", .vstr "B"])])
      (.varr [.vstr "A", .vstr "B"])
      (by decide) (by decide) (by decide) (by decide) (by decide) (by decide)
      (by decide) (by decide) (by decide)).1,
   by decide⟩

/-! ### C2 — handleChange always runs both phases -/

/-- With resolvable lookups the older `assembleLocalCollectioInfo` does not
crash. -/
theorem oldAssembleLocalCollectioInfo_ok (eng : StorageEngine) (info : VValue)
    (db sh ours : String)
    (h1 : (eng.databases db).isSome = true)
    (h2 : (eng.collections db sh).isSome = true) :
    ∃ v, OldRev.assembleLocalCollectioInfo eng info db sh ours = .ok v := by
  unfold OldRev.assembleLocalCollectioInfo
  cases hd : eng.databases db with
  | none => rw [hd] at h1; simp at h1
  | some x =>
    cases hc : eng.collections db sh with
    | none => rw [hc] at h2; simp at h2
    | some followers => exact ⟨_, rfl⟩

theorem exists_ok_ite {α : Type} (c : Prop) [Decidable c] (a b : α) :
    ∃ w, (if c then Except.ok (ε := Unit) a else Except.ok b) = .ok w := by
  by_cases h : c
  · exact ⟨a, if_pos h⟩
  · exact ⟨b, if_neg h⟩

theorem oldReportShard_ok (eng : StorageEngine) (cur : VValue)
    (dbName serverId shName : String) (shSlice : VValue)
    (h1 : ∀ d, (eng.databases d).isSome = true)
    (h2 : ∀ d s, (eng.collections d s).isSome = true) :
    ∃ w, OldRev.reportShard eng cur dbName serverId shName shSlice = .ok w := by
  unfold OldRev.reportShard
  by_cases hldr : getStrD shSlice LEADER = ""
  · rw [if_pos hldr]
    obtain ⟨v, hv⟩ := oldAssembleLocalCollectioInfo_ok eng shSlice dbName shName serverId
      (h1 dbName) (h2 dbName shName)
    rw [hv]
    exact exists_ok_ite _ _ _
  · rw [if_neg hldr]
    cases hs : getPath cur [COLLECTIONS, dbName, getStrD shSlice PLAN_ID, shName, SERVERS] with
    | none => exact ⟨_, rfl⟩
    | some s => exact exists_ok_ite _ _ _

theorem oldReportShardsLoop_ok (eng : StorageEngine) (cur : VValue)
    (dbName serverId : String)
    (h1 : ∀ d, (eng.databases d).isSome = true)
    (h2 : ∀ d s, (eng.collections d s).isSome = true) :
    ∀ shards : List (String × VValue),
      ∃ w, OldRev.reportShardsLoop eng cur dbName serverId shards = .ok w := by
  intro shards
  induction shards with
  | nil => exact ⟨[], rfl⟩
  | cons sh rest ih =>
    obtain ⟨shName, shv⟩ := sh
    unfold OldRev.reportShardsLoop
    by_cases hf : shName.front = '_'
    · rw [if_pos hf]; exact ih
    · rw [if_neg hf]
      obtain ⟨w, hw⟩ := oldReportShard_ok eng cur dbName serverId shName shv h1 h2
      obtain ⟨ws, hws⟩ := ih
      rw [hw, hws]
      exact ⟨w ++ ws, rfl⟩

theorem oldReportDbsLoop_ok (eng : StorageEngine) (cur : VValue) (serverId : String)
    (h1 : ∀ d, (eng.databases d).isSome = true)
    (h2 : ∀ d s, (eng.collections d s).isSome = true) :
    ∀ dbs : List (String × VValue),
      ∃ w, OldRev.reportDbsLoop eng cur serverId dbs = .ok w := by
  intro dbs
  induction dbs with
  | nil => exact ⟨[], rfl⟩
  | cons db rest ih =>
    obtain ⟨dbName, dbVal⟩ := db
    unfold OldRev.reportDbsLoop
    obtain ⟨w2, hw2⟩ := oldReportShardsLoop_ok eng cur dbName serverId h1 h2 (objFields dbVal)
    obtain ⟨ws, hws⟩ := ih
    rw [hw2, hws]
    exact ⟨reportDatabaseEntry eng cur serverId dbName ++ w2 ++ ws, rfl⟩

/-- C2: for every Plan/Current/Local snapshot and serverId (given storage
lookups that resolve, so that the older revision's separate null-dereference
defect, C8, does not crash the process), `handleChange` executes `phaseOne`
— whose `Result` is always ok, since `executePlan` returns the
default-constructed result and `phaseOne`'s catch block swallows exceptions —
and then executes `phaseTwo`, and the composed report contains the
`phaseOne` fragment, the `Plan` version echo, the `phaseTwo` fragment (the
report writes of `reportInCurrent`) and the `Current` version echo, while
the actions of both phases are handed to the maintenance feature in order. -/
theorem handleChange_runs_both_phases (eng : StorageEngine)
    (plan current local_ : VValue) (serverId : String)
    (h1 : ∀ d, (eng.databases d).isSome = true)
    (h2 : ∀ d s, (eng.collections d s).isSome = true) :
    ∃ frag2,
      OldRev.reportInCurrent eng plan current local_ serverId = .ok frag2 ∧
      OldRev.handleChange eng plan current local_ serverId = .ok (true,
        [("phaseOne", VValue.vobj []),
         ("Plan", VValue.vobj [("Version", getD plan "Version")]),
         ("phaseTwo", VValue.vobj frag2),
         ("Current", VValue.vobj [("Version", getD current "Version")])],
        OldRev.executePlan plan local_ serverId ++
          syncReplicatedShardsWithLeaders plan current local_ serverId) := by
  obtain ⟨frag2, hfrag⟩ := oldReportDbsLoop_ok eng current serverId h1 h2 (objFields local_)
  have hric : OldRev.reportInCurrent eng plan current local_ serverId = .ok frag2 := hfrag
  refine ⟨frag2, hric, ?_⟩
  unfold OldRev.handleChange OldRev.phaseTwo OldRev.phaseOne
  rw [hric]
  rfl

/-- Witness for C2 at concrete snapshots and an all-resolving engine. -/
theorem handleChange_runs_both_phases_witness :
    ∃ frag2,
      OldRev.reportInCurrent engAll syncPlan syncCurNoServers syncLocal "B" = .ok frag2 ∧
      OldRev.handleChange engAll syncPlan syncCurNoServers syncLocal "B" = .ok (true,
        [("phaseOne", VValue.vobj []),
         ("Plan", VValue.vobj [("Version", getD syncPlan "Version")]),
         ("phaseTwo", VValue.vobj frag2),
         ("Current", VValue.vobj [("Version", getD syncCurNoServers "Version")])],
        OldRev.executePlan syncPlan syncLocal "B" ++
          syncReplicatedShardsWithLeaders syncPlan syncCurNoServers syncLocal "B") :=
  handleChange_runs_both_phases engAll syncPlan syncCurNoServers syncLocal "B"
    (fun _ => rfl) (fun _ _ => rfl)

/-! ### C5 — idempotence: utility lemmas -/

theorem lookupF_mem {l : List (String × VValue)} {k : String} {v : VValue}
    (h : lookupF l k = some v) : (k, v) ∈ l := by
  induction l with
  | nil => simp [lookupF] at h
  | cons e rest ih =>
    obtain ⟨k', v'⟩ := e
    by_cases hk : k' = k
    · subst hk
      rw [lookupF, if_pos rfl] at h
      injection h with h
      subst h
      exact List.mem_cons_self _ _
    · rw [lookupF, if_neg hk] at h
      exact List.mem_cons_of_mem _ (ih h)

/-- In an association list whose key occurs exactly once, membership
determines the lookup. -/
theorem lookupF_eq_of_count_one {l : List (String × VValue)} {k : String} {v : VValue}
    (hmem : (k, v) ∈ l) (hcount : (l.map Prod.fst).count k = 1) :
    lookupF l k = some v := by
  induction l with
  | nil => simp at hmem
  | cons e rest ih =>
    obtain ⟨k', v'⟩ := e
    by_cases hk : k' = k
    · subst hk
      have hrest : (rest.map Prod.fst).count k' = 0 := by
        simp only [List.map_cons, List.count_cons, beq_self_eq_true, if_true] at hcount
        omega
      rcases List.mem_cons.1 hmem with he | hmemr
      · rw [lookupF, if_pos rfl]
        rw [Prod.mk.injEq] at he
        rw [he.2]
      · exfalso
        rw [List.count_eq_zero] at hrest
        exact hrest (List.mem_map_of_mem Prod.fst hmemr)
    · rw [lookupF, if_neg hk]
      rcases List.mem_cons.1 hmem with he | hmemr
      · exfalso
        rw [Prod.mk.injEq] at he
        exact hk he.1.symm
      · apply ih hmemr
        simpa [List.map_cons, List.count_cons, hk] using hcount
  
theorem isArr_of_mem_arrElems {v : VValue} {x : VValue} (h : x ∈ arrElems v) :
    isArr v = true := by
  cases v
  case varr => rfl
  all_goals simp [arrElems] at h

theorem hasKeyB_of_mem_arrElems_getD {v : VValue} {k : String} {x : VValue}
    (h : x ∈ arrElems (getD v k)) : hasKeyB v k = true := by
  cases hg : getKey v k with
  | none =>
    exfalso
    rw [show getD v k = (getKey v k).getD .vnull from rfl, hg] at h
    simp [arrElems] at h
  | some w => simp [hasKeyB, hg]

/-- Does a string contain the path separator? -/
def hasSlash (s : String) : Bool := decide ('/' ∈ s.data)

/-- A planned index id must not contain the separator for the identity
bookkeeping to stay readable; true of the numeric ids the engine produces. -/
def noSlash (s : String) : Bool := !hasSlash s

theorem hasSlash_identity (a b : String) : hasSlash (a ++ "/" ++ b) = true := by
  simp only [hasSlash, String.data_append, decide_eq_true_eq]
  apply List.mem_append_left
  apply List.mem_append_right
  show '/' ∈ ['/']
  exact List.mem_singleton_self _

theorem noSlash_ne_identity {i : String} (h : noSlash i = true) (a b : String) :
    i ≠ a ++ "/" ++ b := by
  intro he
  rw [noSlash, he, hasSlash_identity a b] at h
  simp at h

theorem underscore_append_ne (s : String) : UNDERSCORE ++ s ≠ s := by
  intro h
  have := congrArg String.length h
  rw [String.length_append] at this
  have hu : UNDERSCORE.length = 1 := rfl
  omega

theorem mem_eraseStr_of_ne {l : List String} {y x : String}
    (hy : y ∈ l) (hne : y ≠ x) : y ∈ eraseStr l x := by
  simp [eraseStr, List.mem_filter, hy, hne]

theorem mem_of_mem_eraseStr {l : List String} {y x : String}
    (hy : y ∈ eraseStr l x) : y ∈ l := by
  simp only [eraseStr, List.mem_filter] at hy
  exact hy.1

theorem mem_setInsert_self (l : List String) (x : String) : x ∈ setInsert l x := by
  simp only [setInsert]
  by_cases h : x ∈ l
  · rwa [if_pos h]
  · rw [if_neg h]; exact List.mem_cons_self _ _

theorem mem_setInsert_of_mem (l : List String) (x y : String) (h : y ∈ l) :
    y ∈ setInsert l x := by
  simp only [setInsert]
  by_cases hx : x ∈ l
  · rwa [if_pos hx]
  · rw [if_neg hx]; exact List.mem_cons_of_mem _ h

/-- Keys of system entries do not collide with a non-system name. -/
theorem ne_of_front_underscore {k s : String} (hk : k.front = '_') (hs : s.front ≠ '_') :
    k ≠ s := by
  intro he
  rw [he] at hk
  exact hs hk

/-! ### C5 — idempotence of the Plan pass -/

/-- Does a planned server-list entry match this node? (the `handlePlanShard`
guard). -/
def entryMatches (serverId : String) (v : VValue) : Bool := asStr v == serverId

/-- "Local exactly reflects Plan" for one planned shard assigned to this
node: the shard exists locally, the whitelist properties agree, the local
leadership flag matches the planned role, and the local index array is the
planned one (whose field values compare normalized-equal to themselves —
true unless an index document carries duplicated keys — and whose ids are
free of the `/` separator, as the engine's numeric ids are). -/
def shardMatchesLocally (ldb cprops : VValue) (shname serverId : String)
    (servers : VValue) : Bool :=
  match getKey ldb shname with
  | none => false
  | some lcol =>
    cmpProps.all (fun p => decide (getKey cprops p = getKey lcol p)) &&
    ((getStrD lcol LEADER == "") == (asStr (firstElemD servers) == serverId)) &&
    decide (getKey lcol INDEXES = getKey cprops INDEXES) &&
    (arrElems (getD cprops INDEXES)).all
      (fun ix => normEqO (getKey ix FIELDS) (getKey ix FIELDS)) &&
    (arrElems (getD cprops INDEXES)).all (fun ix => noSlash (getStrD ix ID))

theorem compareRelevantProps_nil {cprops lcol : VValue}
    (h : ∀ p ∈ cmpProps, getKey cprops p = getKey lcol p) :
    compareRelevantProps cprops lcol = [] := by
  rw [compareRelevantProps, List.filterMap_eq_nil]
  intro p hp
  rw [if_neg]
  intro hne
  exact hne (h p hp)

/-- A planned index array diffed against itself yields no difference, as
long as its field values are self-normal. -/
theorem compareIndexesList_self_nil (shname : String) (ps : List VValue) :
    ∀ (qs : List VValue) (indis : List String),
      (∀ p ∈ qs, p ∈ ps) →
      (∀ p ∈ qs, normEqO (getKey p FIELDS) (getKey p FIELDS) = true) →
      (compareIndexesList shname (.varr ps) qs indis).1 = [] := by
  intro qs
  induction qs with
  | nil => intro indis _ _; rfl
  | cons q rest ih =>
    intro indis hsub hself
    rw [compareIndexesList]
    by_cases hty : getStrD q TYPE = PRIMARY ∨ getStrD q TYPE = EDGE
    · rw [if_pos hty]
      exact ih _ (fun p hp => hsub p (List.mem_cons_of_mem _ hp))
        (fun p hp => hself p (List.mem_cons_of_mem _ hp))
    · rw [if_neg hty]
      have hfound : (isArr (VValue.varr ps) &&
          (arrElems (VValue.varr ps)).any
            (lindexMatches (getKey q FIELDS) (getStrD q TYPE))) = true := by
        simp only [isArr, Bool.true_and, List.any_eq_true]
        refine ⟨q, ?_, ?_⟩
        · simpa [arrElems] using hsub q (List.mem_cons_self _ _)
        · simp only [lindexMatches, Bool.and_eq_true]
          refine ⟨⟨?_, ?_⟩, ?_⟩
          · simpa using hty
          · exact hself q (List.mem_cons_self _ _)
          · simp
      simp only [hfound]
      exact ih _ (fun p hp => hsub p (List.mem_cons_of_mem _ hp))
        (fun p hp => hself p (List.mem_cons_of_mem _ hp))

theorem compareIndexes_self_nil (shname : String) (v : VValue) (indis : List String)
    (hself : ∀ p ∈ arrElems v, normEqO (getKey p FIELDS) (getKey p FIELDS) = true) :
    (compareIndexes shname v v indis).1 = [] := by
  cases v with
  | varr ps =>
    exact compareIndexesList_self_nil shname ps ps indis (fun p hp => hp)
      (by simpa [arrElems] using hself)
  | vnull => rfl
  | vbool b => rfl
  | vnum n => rfl
  | vstr s => rfl
  | vobj fs => rfl

theorem compareIndexesList_snd_mono (shname : String) (l : VValue) :
    ∀ (ps : List VValue) (indis : List String) (x : String),
      x ∈ indis → x ∈ (compareIndexesList shname l ps indis).2 := by
  intro ps
  induction ps with
  | nil => intro indis x hx; exact hx
  | cons q rest ih =>
    intro indis x hx
    rw [compareIndexesList]
    by_cases hty : getStrD q TYPE = PRIMARY ∨ getStrD q TYPE = EDGE
    · rw [if_pos hty]; exact ih _ _ hx
    · rw [if_neg hty]
      simp only
      exact ih _ _ (mem_setInsert_of_mem _ _ _ hx)

theorem compareIndexesList_snd_insert (shname : String) (l : VValue) :
    ∀ (ps : List VValue) (indis : List String) (p : VValue),
      p ∈ ps → ¬(getStrD p TYPE = PRIMARY ∨ getStrD p TYPE = EDGE) →
      (shname ++ "/" ++ getStrD p ID) ∈ (compareIndexesList shname l ps indis).2 := by
  intro ps
  induction ps with
  | nil => intro indis p hp; simp at hp
  | cons q rest ih =>
    intro indis p hp hty
    rw [compareIndexesList]
    rcases List.mem_cons.1 hp with he | hrest
    · subst he
      rw [if_neg hty]
      simp only
      exact compareIndexesList_snd_mono shname l rest _ _ (mem_setInsert_self _ _)
    · by_cases hqty : getStrD q TYPE = PRIMARY ∨ getStrD q TYPE = EDGE
      · rw [if_pos hqty]; exact ih _ p hrest hty
      · rw [if_neg hqty]
        simp only
        exact ih _ p hrest hty

/-- The membership-set outcome of `handlePlanShard` on `colis`. -/
theorem handlePlanShard_colis (db cprops ldb : VValue)
    (dbname colname shname serverId leaderId : String) (colis indis : List String) :
    (handlePlanShard db cprops ldb dbname colname shname serverId leaderId colis indis).2.1
      = if asStr db = serverId then setInsert colis shname else colis := by
  simp only [handlePlanShard]
  by_cases hdb : asStr db = serverId
  · rw [if_pos hdb, if_pos hdb]
    by_cases hl : hasKeyB ldb shname = true
    · rw [if_pos hl]
    · rw [if_neg hl]
  · rw [if_neg hdb, if_neg hdb]

theorem handlePlanShard_indis_mono (db cprops ldb : VValue)
    (dbname colname shname serverId leaderId : String) (colis indis : List String)
    (x : String) (hx : x ∈ indis) :
    x ∈ (handlePlanShard db cprops ldb dbname colname shname serverId leaderId
          colis indis).2.2 := by
  simp only [handlePlanShard]
  by_cases hdb : asStr db = serverId
  · rw [if_pos hdb]
    by_cases hl : hasKeyB ldb shname = true
    · rw [if_pos hl]
      by_cases hix : hasKeyB cprops INDEXES = true
      · rw [if_pos hix]
        simp only [compareIndexes]
        cases getD cprops INDEXES with
        | varr ps => exact compareIndexesList_snd_mono _ _ ps _ _ hx
        | vnull => exact hx
        | vbool b => exact hx
        | vnum n => exact hx
        | vstr s => exact hx
        | vobj fs => exact hx
      · rw [if_neg hix]; exact hx
    · rw [if_neg hl]; exact hx
  · rw [if_neg hdb]; exact hx

theorem handlePlanShard_indis_insert (db cprops ldb : VValue)
    (dbname colname shname serverId leaderId : String) (colis indis : List String)
    (p : VValue)
    (hdb : asStr db = serverId)
    (hl : hasKeyB ldb shname = true)
    (hp : p ∈ arrElems (getD cprops INDEXES))
    (hty : ¬(getStrD p TYPE = PRIMARY ∨ getStrD p TYPE = EDGE)) :
    (shname ++ "/" ++ getStrD p ID) ∈
      (handlePlanShard db cprops ldb dbname colname shname serverId leaderId
        colis indis).2.2 := by
  have hix : hasKeyB cprops INDEXES = true := hasKeyB_of_mem_arrElems_getD hp
  have harr : isArr (getD cprops INDEXES) = true := isArr_of_mem_arrElems hp
  simp only [handlePlanShard]
  rw [if_pos hdb, if_pos hl, if_pos hix]
  simp only [compareIndexes]
  cases hv : getD cprops INDEXES with
  | varr ps =>
    apply compareIndexesList_snd_insert
    · rw [hv] at hp; simpa [arrElems] using hp
    · exact hty
  | vnull => rw [hv] at harr; simp [isArr] at harr
  | vbool b => rw [hv] at harr; simp [isArr] at harr
  | vnum n => rw [hv] at harr; simp [isArr] at harr
  | vstr s => rw [hv] at harr; simp [isArr] at harr
  | vobj fs => rw [hv] at harr; simp [isArr] at harr

/-- A matched `handlePlanShard` call emits no action. -/
theorem handlePlanShard_matched_actions_nil (db cprops ldb : VValue)
    (dbname colname shname serverId : String) (servers : VValue)
    (colis indis : List String)
    (hdb : asStr db = serverId)
    (hm : shardMatchesLocally ldb cprops shname serverId servers = true) :
    (handlePlanShard db cprops ldb dbname colname shname serverId
      (asStr (firstElemD servers)) colis indis).1 = [] := by
  cases hlc : getKey ldb shname with
  | none => rw [shardMatchesLocally, hlc] at hm; exact absurd hm (by simp)
  | some lcol =>
    rw [shardMatchesLocally, hlc] at hm
    simp only [Bool.and_eq_true, List.all_eq_true, decide_eq_true_eq] at hm
    obtain ⟨⟨⟨⟨hprops, hlead⟩, hidx⟩, hself⟩, _⟩ := hm
    have hl : hasKeyB ldb shname = true := by simp [hasKeyB, hlc]
    have hlcol : getD ldb shname = lcol := by
      rw [show getD ldb shname = (getKey ldb shname).getD .vnull from rfl, hlc]
      rfl
    have hpnil : compareRelevantProps cprops (getD ldb shname) = [] := by
      rw [hlcol]
      exact compareRelevantProps_nil (fun p hp => hprops p hp)
    have hb : (getStrD lcol LEADER == "") = (asStr (firstElemD servers) == serverId) :=
      eq_of_beq hlead
    have hleadeq : ((getStrD (getD ldb shname) LEADER = "")
        = (serverId = asStr (firstElemD servers))) := by
      rw [hlcol]
      apply propext
      constructor
      · intro h1
        have hbt : (getStrD lcol LEADER == "") = true := beq_iff_eq.mpr h1
        rw [hb] at hbt
        exact (beq_iff_eq.mp hbt).symm
      · intro h1
        have hbt : (asStr (firstElemD servers) == serverId) = true := beq_iff_eq.mpr h1.symm
        rw [← hb] at hbt
        exact beq_iff_eq.mp hbt
    simp only [handlePlanShard]
    rw [if_pos hdb, if_pos hl]
    rw [if_neg]
    · by_cases hix : hasKeyB cprops INDEXES = true
      · rw [if_pos hix]
        simp only [List.nil_append]
        have hdiff : (compareIndexes shname (getD cprops INDEXES)
            (getD (getD ldb shname) INDEXES) indis).1 = [] := by
          have : getD (getD ldb shname) INDEXES = getD cprops INDEXES := by
            rw [hlcol]
            rw [show getD lcol INDEXES = (getKey lcol INDEXES).getD .vnull from rfl, hidx]
            rfl
          rw [this]
          exact compareIndexes_self_nil shname (getD cprops INDEXES) indis hself
        rw [hdiff]
        rfl
      · rw [if_neg hix]
        rfl
    · rw [hpnil]
      intro hcontr
      rcases hcontr with hcontr | hcontr
      · exact hcontr rfl
      · exact hcontr hleadeq

theorem handlePlanShard_skip (db cprops ldb : VValue)
    (dbname colname shname serverId leaderId : String) (colis indis : List String)
    (hdb : ¬asStr db = serverId) :
    handlePlanShard db cprops ldb dbname colname shname serverId leaderId colis indis
      = ([], colis, indis) := by
  simp [handlePlanShard, hdb]

theorem planServersLoop_colis_mono (cprops ldb : VValue)
    (dbname colname shname serverId leaderId : String) :
    ∀ (vs : List VValue) (colis indis : List String) (x : String), x ∈ colis →
      x ∈ (planServersLoop cprops ldb dbname colname shname serverId leaderId
            vs colis indis).2.1 := by
  intro vs
  induction vs with
  | nil => intro colis indis x hx; exact hx
  | cons v rest ih =>
    intro colis indis x hx
    rw [planServersLoop]
    apply ih
    rw [handlePlanShard_colis]
    by_cases hdb : asStr v = serverId
    · rw [if_pos hdb]; exact mem_setInsert_of_mem _ _ _ hx
    · rw [if_neg hdb]; exact hx

theorem planServersLoop_indis_mono (cprops ldb : VValue)
    (dbname colname shname serverId leaderId : String) :
    ∀ (vs : List VValue) (colis indis : List String) (x : String), x ∈ indis →
      x ∈ (planServersLoop cprops ldb dbname colname shname serverId leaderId
            vs colis indis).2.2 := by
  intro vs
  induction vs with
  | nil => intro colis indis x hx; exact hx
  | cons v rest ih =>
    intro colis indis x hx
    rw [planServersLoop]
    exact ih _ _ _ (handlePlanShard_indis_mono _ _ _ _ _ _ _ _ _ _ _ hx)

theorem planServersLoop_colis_insert (cprops ldb : VValue)
    (dbname colname shname serverId leaderId : String) :
    ∀ (vs : List VValue) (colis indis : List String),
      (∃ v ∈ vs, asStr v = serverId) →
      shname ∈ (planServersLoop cprops ldb dbname colname shname serverId leaderId
            vs colis indis).2.1 := by
  intro vs
  induction vs with
  | nil => intro colis indis hex; simp at hex
  | cons v rest ih =>
    intro colis indis hex
    rw [planServersLoop]
    by_cases hdb : asStr v = serverId
    · apply planServersLoop_colis_mono
      rw [handlePlanShard_colis, if_pos hdb]
      exact mem_setInsert_self _ _
    · obtain ⟨w, hw, hws⟩ := hex
      rcases List.mem_cons.1 hw with he | hrest
      · subst he; exact absurd hws hdb
      · exact ih _ _ ⟨w, hrest, hws⟩

theorem planServersLoop_indis_insert (cprops ldb : VValue)
    (dbname colname shname serverId : String) (servers : VValue) :
    ∀ (vs : List VValue) (colis indis : List String) (p : VValue),
      (∃ v ∈ vs, asStr v = serverId) →
      hasKeyB ldb shname = true →
      p ∈ arrElems (getD cprops INDEXES) →
      ¬(getStrD p TYPE = PRIMARY ∨ getStrD p TYPE = EDGE) →
      (shname ++ "/" ++ getStrD p ID) ∈
        (planServersLoop cprops ldb dbname colname shname serverId
          (asStr (firstElemD servers)) vs colis indis).2.2 := by
  intro vs
  induction vs with
  | nil => intro colis indis p hex; simp at hex
  | cons v rest ih =>
    intro colis indis p hex hl hp hty
    rw [planServersLoop]
    by_cases hdb : asStr v = serverId
    · apply planServersLoop_indis_mono
      exact handlePlanShard_indis_insert _ _ _ _ _ _ _ _ _ _ p hdb hl hp hty
    · obtain ⟨w, hw, hws⟩ := hex
      rcases List.mem_cons.1 hw with he | hrest
      · subst he; exact absurd hws hdb
      · exact ih _ _ p ⟨w, hrest, hws⟩ hl hp hty

theorem planServersLoop_actions_nil (cprops ldb : VValue)
    (dbname colname shname serverId : String) (servers : VValue) :
    ∀ (vs : List VValue) (colis indis : List String),
      (∀ v ∈ vs, asStr v = serverId →
        shardMatchesLocally ldb cprops shname serverId servers = true) →
      (planServersLoop cprops ldb dbname colname shname serverId
        (asStr (firstElemD servers)) vs colis indis).1 = [] := by
  intro vs
  induction vs with
  | nil => intro colis indis _; rfl
  | cons v rest ih =>
    intro colis indis hm
    rw [planServersLoop]
    by_cases hdb : asStr v = serverId
    · rw [handlePlanShard_matched_actions_nil v cprops ldb dbname colname shname serverId
          servers colis indis hdb (hm v (List.mem_cons_self _ _) hdb)]
      rw [List.nil_append]
      exact ih _ _ (fun w hw => hm w (List.mem_cons_of_mem _ hw))
    · rw [handlePlanShard_skip _ _ _ _ _ _ _ _ _ _ hdb]
      simp only [List.nil_append]
      exact ih _ _ (fun w hw => hm w (List.mem_cons_of_mem _ hw))

theorem planShardsLoop_colis_mono (cprops ldb : VValue) (dbname colname serverId : String) :
    ∀ (shs : List (String × VValue)) (colis indis : List String) (x : String), x ∈ colis →
      x ∈ (planShardsLoop cprops ldb dbname colname serverId shs colis indis).2.1 := by
  intro shs
  induction shs with
  | nil => intro colis indis x hx; exact hx
  | cons sh rest ih =>
    intro colis indis x hx
    obtain ⟨shname, sv⟩ := sh
    rw [planShardsLoop]
    by_cases ha : isArr sv = true
    · rw [if_pos ha]
      exact ih _ _ _ (planServersLoop_colis_mono _ _ _ _ _ _ _ _ _ _ _ hx)
    · rw [if_neg ha]
      exact ih _ _ _ hx

theorem planShardsLoop_indis_mono (cprops ldb : VValue) (dbname colname serverId : String) :
    ∀ (shs : List (String × VValue)) (colis indis : List String) (x : String), x ∈ indis →
      x ∈ (planShardsLoop cprops ldb dbname colname serverId shs colis indis).2.2 := by
  intro shs
  induction shs with
  | nil => intro colis indis x hx; exact hx
  | cons sh rest ih =>
    intro colis indis x hx
    obtain ⟨shname, sv⟩ := sh
    rw [planShardsLoop]
    by_cases ha : isArr sv = true
    · rw [if_pos ha]
      exact ih _ _ _ (planServersLoop_indis_mono _ _ _ _ _ _ _ _ _ _ _ hx)
    · rw [if_neg ha]
      exact ih _ _ _ hx

theorem planShardsLoop_colis_insert (cprops ldb : VValue)
    (dbname colname serverId shname : String) (sv : VValue) :
    ∀ (shs : List (String × VValue)) (colis indis : List String),
      (shname, sv) ∈ shs → (∃ v ∈ arrElems sv, asStr v = serverId) →
      shname ∈ (planShardsLoop cprops ldb dbname colname serverId shs colis indis).2.1 := by
  intro shs
  induction shs with
  | nil => intro colis indis hmem; simp at hmem
  | cons sh rest ih =>
    intro colis indis hmem hex
    rcases List.mem_cons.1 hmem with he | hrest
    · obtain ⟨w, hw, hws⟩ := hex
      have ha : isArr sv = true := isArr_of_mem_arrElems hw
      rw [← he, planShardsLoop, if_pos ha]
      apply planShardsLoop_colis_mono
      exact planServersLoop_colis_insert _ _ _ _ _ _ _ _ _ _ ⟨w, hw, hws⟩
    · obtain ⟨s2, v2⟩ := sh
      rw [planShardsLoop]
      by_cases ha : isArr v2 = true
      · rw [if_pos ha]; exact ih _ _ hrest hex
      · rw [if_neg ha]; exact ih _ _ hrest hex

theorem planShardsLoop_indis_insert (cprops ldb : VValue)
    (dbname colname serverId shname : String) (sv : VValue) :
    ∀ (shs : List (String × VValue)) (colis indis : List String) (p : VValue),
      (shname, sv) ∈ shs → (∃ v ∈ arrElems sv, asStr v = serverId) →
      hasKeyB ldb shname = true →
      p ∈ arrElems (getD cprops INDEXES) →
      ¬(getStrD p TYPE = PRIMARY ∨ getStrD p TYPE = EDGE) →
      (shname ++ "/" ++ getStrD p ID) ∈
        (planShardsLoop cprops ldb dbname colname serverId shs colis indis).2.2 := by
  intro shs
  induction shs with
  | nil => intro colis indis p hmem; simp at hmem
  | cons sh rest ih =>
    intro colis indis p hmem hex hl hp hty
    rcases List.mem_cons.1 hmem with he | hrest
    · obtain ⟨w, hw, hws⟩ := hex
      have ha : isArr sv = true := isArr_of_mem_arrElems hw
      rw [← he, planShardsLoop, if_pos ha]
      apply planShardsLoop_indis_mono
      exact planServersLoop_indis_insert _ _ _ _ _ _ sv _ _ _ p ⟨w, hw, hws⟩ hl hp hty
    · obtain ⟨s2, v2⟩ := sh
      rw [planShardsLoop]
      by_cases ha : isArr v2 = true
      · rw [if_pos ha]; exact ih _ _ p hrest hex hl hp hty
      · rw [if_neg ha]; exact ih _ _ p hrest hex hl hp hty

theorem planShardsLoop_actions_nil (cprops ldb : VValue)
    (dbname colname serverId : String) :
    ∀ (shs : List (String × VValue)) (colis indis : List String),
      (∀ sh ∈ shs, ∀ v ∈ arrElems sh.2, asStr v = serverId →
        shardMatchesLocally ldb cprops sh.1 serverId sh.2 = true) →
      (planShardsLoop cprops ldb dbname colname serverId shs colis indis).1 = [] := by
  intro shs
  induction shs with
  | nil => intro colis indis _; rfl
  | cons sh rest ih =>
    intro colis indis hm
    obtain ⟨shname, sv⟩ := sh
    by_cases ha : isArr sv = true
    · have h1 := planServersLoop_actions_nil cprops ldb dbname colname shname serverId sv
        (arrElems sv) colis indis
        (fun v hv hvs => hm (shname, sv) (List.mem_cons_self _ _) v hv hvs)
      have h2 := ih
        (planServersLoop cprops ldb dbname colname shname serverId
          (asStr (firstElemD sv)) (arrElems sv) colis indis).2.1
        (planServersLoop cprops ldb dbname colname shname serverId
          (asStr (firstElemD sv)) (arrElems sv) colis indis).2.2
        (fun e he => hm e (List.mem_cons_of_mem _ he))
      simp only [planShardsLoop, if_pos ha, h1, h2, List.nil_append]
    · rw [planShardsLoop, if_neg ha]
      exact ih _ _ (fun e he => hm e (List.mem_cons_of_mem _ he))

theorem planColsLoop_colis_mono (ldb : VValue) (dbname serverId : String) :
    ∀ (cols : List (String × VValue)) (colis indis : List String) (x : String), x ∈ colis →
      x ∈ (planColsLoop ldb dbname serverId cols colis indis).2.1 := by
  intro cols
  induction cols with
  | nil => intro colis indis x hx; exact hx
  | cons col rest ih =>
    intro colis indis x hx
    obtain ⟨colname, cprops⟩ := col
    rw [planColsLoop]
    exact ih _ _ _ (planShardsLoop_colis_mono _ _ _ _ _ _ _ _ _ hx)

theorem planColsLoop_indis_mono (ldb : VValue) (dbname serverId : String) :
    ∀ (cols : List (String × VValue)) (colis indis : List String) (x : String), x ∈ indis →
      x ∈ (planColsLoop ldb dbname serverId cols colis indis).2.2 := by
  intro cols
  induction cols with
  | nil => intro colis indis x hx; exact hx
  | cons col rest ih =>
    intro colis indis x hx
    obtain ⟨colname, cprops⟩ := col
    rw [planColsLoop]
    exact ih _ _ _ (planShardsLoop_indis_mono _ _ _ _ _ _ _ _ _ hx)

theorem planColsLoop_colis_insert (ldb : VValue) (dbname serverId : String)
    (colname shname : String) (cprops sv : VValue) :
    ∀ (cols : List (String × VValue)) (colis indis : List String),
      (colname, cprops) ∈ cols →
      (shname, sv) ∈ objFields (getD cprops SHARDS) →
      (∃ v ∈ arrElems sv, asStr v = serverId) →
      shname ∈ (planColsLoop ldb dbname serverId cols colis indis).2.1 := by
  intro cols
  induction cols with
  | nil => intro colis indis hmem; simp at hmem
  | cons col rest ih =>
    intro colis indis hmem hsh hex
    rcases List.mem_cons.1 hmem with he | hrest
    · rw [← he, planColsLoop]
      apply planColsLoop_colis_mono
      exact planShardsLoop_colis_insert _ _ _ _ _ _ sv _ _ _ hsh hex
    · obtain ⟨c2, p2⟩ := col
      rw [planColsLoop]
      exact ih _ _ hrest hsh hex

theorem planColsLoop_indis_insert (ldb : VValue) (dbname serverId : String)
    (colname shname : String) (cprops sv : VValue) :
    ∀ (cols : List (String × VValue)) (colis indis : List String) (p : VValue),
      (colname, cprops) ∈ cols →
      (shname, sv) ∈ objFields (getD cprops SHARDS) →
      (∃ v ∈ arrElems sv, asStr v = serverId) →
      hasKeyB ldb shname = true →
      p ∈ arrElems (getD cprops INDEXES) →
      ¬(getStrD p TYPE = PRIMARY ∨ getStrD p TYPE = EDGE) →
      (shname ++ "/" ++ getStrD p ID) ∈
        (planColsLoop ldb dbname serverId cols colis indis).2.2 := by
  intro cols
  induction cols with
  | nil => intro colis indis p hmem; simp at hmem
  | cons col rest ih =>
    intro colis indis p hmem hsh hex hl hp hty
    rcases List.mem_cons.1 hmem with he | hrest
    · rw [← he, planColsLoop]
      apply planColsLoop_indis_mono
      exact planShardsLoop_indis_insert _ _ _ _ _ _ sv _ _ _ p hsh hex hl hp hty
    · obtain ⟨c2, p2⟩ := col
      rw [planColsLoop]
      exact ih _ _ p hrest hsh hex hl hp hty

theorem planColsLoop_actions_nil (ldb : VValue) (dbname serverId : String) :
    ∀ (cols : List (String × VValue)) (colis indis : List String),
      (∀ col ∈ cols, ∀ sh ∈ objFields (getD col.2 SHARDS), ∀ v ∈ arrElems sh.2,
        asStr v = serverId →
        shardMatchesLocally ldb col.2 sh.1 serverId sh.2 = true) →
      (planColsLoop ldb dbname serverId cols colis indis).1 = [] := by
  intro cols
  induction cols with
  | nil => intro colis indis _; rfl
  | cons col rest ih =>
    intro colis indis hm
    obtain ⟨colname, cprops⟩ := col
    have h1 := planShardsLoop_actions_nil cprops ldb dbname colname serverId
      (objFields (getD cprops SHARDS)) colis indis
      (fun sh hsh v hv hvs => hm (colname, cprops) (List.mem_cons_self _ _) sh hsh v hv hvs)
    have h2 := ih
      (planShardsLoop cprops ldb dbname colname serverId
        (objFields (getD cprops SHARDS)) colis indis).2.1
      (planShardsLoop cprops ldb dbname colname serverId
        (objFields (getD cprops SHARDS)) colis indis).2.2
      (fun e he => hm e (List.mem_cons_of_mem _ he))
    simp only [planColsLoop, h1, h2, List.nil_append]

theorem planDbsLoop_colis_mono (local_ : VValue) (serverId : String) :
    ∀ (dbs : List (String × VValue)) (colis indis : List String) (x : String), x ∈ colis →
      x ∈ (planDbsLoop local_ serverId dbs colis indis).2.1 := by
  intro dbs
  induction dbs with
  | nil => intro colis indis x hx; exact hx
  | cons db rest ih =>
    intro colis indis x hx
    obtain ⟨dbname, pdb⟩ := db
    rw [planDbsLoop]
    by_cases hk : hasKeyB local_ dbname = true
    · rw [if_pos hk]
      exact ih _ _ _ (planColsLoop_colis_mono _ _ _ _ _ _ _ hx)
    · rw [if_neg hk]
      exact ih _ _ _ hx

theorem planDbsLoop_indis_mono (local_ : VValue) (serverId : String) :
    ∀ (dbs : List (String × VValue)) (colis indis : List String) (x : String), x ∈ indis →
      x ∈ (planDbsLoop local_ serverId dbs colis indis).2.2 := by
  intro dbs
  induction dbs with
  | nil => intro colis indis x hx; exact hx
  | cons db rest ih =>
    intro colis indis x hx
    obtain ⟨dbname, pdb⟩ := db
    rw [planDbsLoop]
    by_cases hk : hasKeyB local_ dbname = true
    · rw [if_pos hk]
      exact ih _ _ _ (planColsLoop_indis_mono _ _ _ _ _ _ _ hx)
    · rw [if_neg hk]
      exact ih _ _ _ hx

theorem planDbsLoop_colis_insert (local_ : VValue) (serverId : String)
    (dbname colname shname : String) (pdb cprops sv : VValue) :
    ∀ (dbs : List (String × VValue)) (colis indis : List String),
      (dbname, pdb) ∈ dbs →
      hasKeyB local_ dbname = true →
      (colname, cprops) ∈ objFields pdb →
      (shname, sv) ∈ objFields (getD cprops SHARDS) →
      (∃ v ∈ arrElems sv, asStr v = serverId) →
      shname ∈ (planDbsLoop local_ serverId dbs colis indis).2.1 := by
  intro dbs
  induction dbs with
  | nil => intro colis indis hmem; simp at hmem
  | cons db rest ih =>
    intro colis indis hmem hk hcol hsh hex
    rcases List.mem_cons.1 hmem with he | hrest
    · rw [← he, planDbsLoop]
      rw [if_pos hk]
      apply planDbsLoop_colis_mono
      exact planColsLoop_colis_insert _ _ _ colname shname cprops sv _ _ _ hcol hsh hex
    · obtain ⟨d2, p2⟩ := db
      rw [planDbsLoop]
      by_cases hk2 : hasKeyB local_ d2 = true
      · rw [if_pos hk2]; exact ih _ _ hrest hk hcol hsh hex
      · rw [if_neg hk2]; exact ih _ _ hrest hk hcol hsh hex

theorem planDbsLoop_indis_insert (local_ : VValue) (serverId : String)
    (dbname colname shname : String) (pdb cprops sv : VValue) :
    ∀ (dbs : List (String × VValue)) (colis indis : List String) (p : VValue),
      (dbname, pdb) ∈ dbs →
      hasKeyB local_ dbname = true →
      (colname, cprops) ∈ objFields pdb →
      (shname, sv) ∈ objFields (getD cprops SHARDS) →
      (∃ v ∈ arrElems sv, asStr v = serverId) →
      hasKeyB (getD local_ dbname) shname = true →
      p ∈ arrElems (getD cprops INDEXES) →
      ¬(getStrD p TYPE = PRIMARY ∨ getStrD p TYPE = EDGE) →
      (shname ++ "/" ++ getStrD p ID) ∈
        (planDbsLoop local_ serverId dbs colis indis).2.2 := by
  intro dbs
  induction dbs with
  | nil => intro colis indis p hmem; simp at hmem
  | cons db rest ih =>
    intro colis indis p hmem hk hcol hsh hex hl hp hty
    rcases List.mem_cons.1 hmem with he | hrest
    · rw [← he, planDbsLoop]
      rw [if_pos hk]
      apply planDbsLoop_indis_mono
      have : getD local_ (dbname, pdb).1 = getD local_ dbname := rfl
      exact planColsLoop_indis_insert _ _ _ colname shname cprops sv _ _ _ p hcol hsh hex
        hl hp hty
    · obtain ⟨d2, p2⟩ := db
      rw [planDbsLoop]
      by_cases hk2 : hasKeyB local_ d2 = true
      · rw [if_pos hk2]; exact ih _ _ p hrest hk hcol hsh hex hl hp hty
      · rw [if_neg hk2]; exact ih _ _ p hrest hk hcol hsh hex hl hp hty

theorem planDbsLoop_actions_nil (local_ : VValue) (serverId : String) :
    ∀ (dbs : List (String × VValue)) (colis indis : List String),
      (∀ db ∈ dbs, hasKeyB local_ db.1 = true) →
      (∀ db ∈ dbs, ∀ col ∈ objFields db.2, ∀ sh ∈ objFields (getD col.2 SHARDS),
        ∀ v ∈ arrElems sh.2, asStr v = serverId →
        shardMatchesLocally (getD local_ db.1) col.2 sh.1 serverId sh.2 = true) →
      (planDbsLoop local_ serverId dbs colis indis).1 = [] := by
  intro dbs
  induction dbs with
  | nil => intro colis indis _ _; rfl
  | cons db rest ih =>
    intro colis indis hkeys hm
    obtain ⟨dbname, pdb⟩ := db
    have hk : hasKeyB local_ dbname = true := hkeys (dbname, pdb) (List.mem_cons_self _ _)
    have h1 := planColsLoop_actions_nil (getD local_ dbname) dbname serverId
      (objFields pdb) colis indis
      (fun col hcol sh hsh v hv hvs =>
        hm (dbname, pdb) (List.mem_cons_self _ _) col hcol sh hsh v hv hvs)
    have h2 := ih
      (planColsLoop (getD local_ dbname) dbname serverId (objFields pdb) colis indis).2.1
      (planColsLoop (getD local_ dbname) dbname serverId (objFields pdb) colis indis).2.2
      (fun e he => hkeys e (List.mem_cons_of_mem _ he))
      (fun e he => hm e (List.mem_cons_of_mem _ he))
    simp only [planDbsLoop, if_pos hk, h1, h2, List.nil_append]

/-! ### C5 — idempotence of the Local pass -/

theorem ne_of_hasSlash_noSlash {y x : String} (hy : hasSlash y = true)
    (hx : noSlash x = true) : y ≠ x := by
  intro he
  rw [he] at hy
  rw [noSlash, hy] at hx
  simp at hx

/-- The non-system shard names of a local database's field list, as filtered
by the Local pass. -/
def localNamesOf (shards : List (String × VValue)) : List String :=
  (shards.filter (fun sh => decide (sh.1.front ≠ '_'))).map Prod.fst

/-- All non-system shard names this node holds locally, across databases. -/
def localShardNames (local_ : VValue) : List String :=
  (objFields local_).flatMap (fun db => localNamesOf (objFields db.2))

/-- The flat shard-name list of Plan's `Collections` subtree. -/
def planShardNames (pcols : VValue) : List String :=
  (shardMapList pcols).map Prod.fst

/-- Is this locally held shard planned (in the given Plan `Collections`
subtree) with this node in its server list? -/
def localShardPlanned (pcols : VValue) (serverId dbname shname : String) : Bool :=
  match getKey pcols dbname with
  | none => false
  | some pdb =>
    (objFields pdb).any (fun pcol =>
      match getKey (getD pcol.2 SHARDS) shname with
      | some servers => (arrElems servers).any (fun v => asStr v == serverId)
      | none => false)

/-- The index-reconciliation loop of `handleLocalShard` emits nothing and
keeps every separator-carrying member of the set, provided every
non-primary/edge local index has its (separator-carrying) identity in the
set and a separator-free id. -/
theorem dropIndexLoop_clean (dbname colname : String) :
    ∀ (ixs : List VValue) (indis : List String),
      (∀ ix ∈ ixs, (getStrD ix TYPE ≠ PRIMARY ∧ getStrD ix TYPE ≠ EDGE) →
        (colname ++ "/" ++ getStrD ix ID) ∈ indis ∧ noSlash (getStrD ix ID) = true) →
      (dropIndexLoop dbname colname ixs indis).1 = [] ∧
      (∀ y ∈ indis, hasSlash y = true → y ∈ (dropIndexLoop dbname colname ixs indis).2) := by
  intro ixs
  induction ixs with
  | nil => intro indis _; exact ⟨rfl, fun y hy _ => hy⟩
  | cons ix rest ih =>
    intro indis hpre
    rw [dropIndexLoop]
    by_cases hty : getStrD ix TYPE ≠ PRIMARY ∧ getStrD ix TYPE ≠ EDGE
    · rw [if_pos hty]
      obtain ⟨hid, hns⟩ := hpre ix (List.mem_cons_self _ _) hty
      rw [if_pos hid]
      have htail : ∀ ix' ∈ rest, (getStrD ix' TYPE ≠ PRIMARY ∧ getStrD ix' TYPE ≠ EDGE) →
          (colname ++ "/" ++ getStrD ix' ID) ∈ eraseStr indis (getStrD ix ID) ∧
          noSlash (getStrD ix' ID) = true := by
        intro ix' hix' hty'
        obtain ⟨hid', hns'⟩ := hpre ix' (List.mem_cons_of_mem _ hix') hty'
        refine ⟨mem_eraseStr_of_ne hid' ?_, hns'⟩
        exact ne_of_hasSlash_noSlash (hasSlash_identity _ _) hns
      refine ⟨(ih _ htail).1, ?_⟩
      intro y hy hsy
      exact (ih _ htail).2 y
        (mem_eraseStr_of_ne hy (ne_of_hasSlash_noSlash hsy hns)) hsy
    · rw [if_neg hty]
      exact ⟨(ih _ (fun ix' hix' hty' => hpre ix' (List.mem_cons_of_mem _ hix') hty')).1,
        fun y hy hsy =>
          (ih _ (fun ix' hix' hty' => hpre ix' (List.mem_cons_of_mem _ hix') hty')).2 y hy hsy⟩

/-- A matched local shard produces no action; the shard name is consumed
from the set and every other entry survives, as does every
separator-carrying index identity. -/
theorem handleLocalShard_clean (dbname colname : String) (cprops shardMap : VValue)
    (colis indis : List String) (serverId : String)
    (hres : ¬(plannedLeaderOf shardMap colname = UNDERSCORE ++ serverId ∧
      getStrD cprops LEADER = ""))
    (hcolis : colname ∈ colis)
    (hixs : ∀ ix ∈ arrElems (getD cprops INDEXES),
      (getStrD ix TYPE ≠ PRIMARY ∧ getStrD ix TYPE ≠ EDGE) →
      (colname ++ "/" ++ getStrD ix ID) ∈ indis ∧ noSlash (getStrD ix ID) = true) :
    (handleLocalShard dbname colname cprops shardMap colis indis serverId).1 = [] ∧
    (∀ y ∈ colis, y ≠ colname →
      y ∈ (handleLocalShard dbname colname cprops shardMap colis indis serverId).2.1) ∧
    (∀ y ∈ indis, hasSlash y = true →
      y ∈ (handleLocalShard dbname colname cprops shardMap colis indis serverId).2.2) := by
  have hdrop : ¬(colis.isEmpty = true ∨ colname ∉ colis) := by
    intro hcontr
    rcases hcontr with hcontr | hcontr
    · rw [List.isEmpty_iff] at hcontr
      rw [hcontr] at hcolis
      simp at hcolis
    · exact hcontr hcolis
  simp only [handleLocalShard, if_neg hres, if_neg hdrop]
  set ixs := if hasKeyB cprops INDEXES = true ∧ isArr (getD cprops INDEXES) = true
    then arrElems (getD cprops INDEXES) else [] with hixsdef
  have hpre : ∀ ix ∈ ixs, (getStrD ix TYPE ≠ PRIMARY ∧ getStrD ix TYPE ≠ EDGE) →
      (colname ++ "/" ++ getStrD ix ID) ∈ indis ∧ noSlash (getStrD ix ID) = true := by
    intro ix hix
    rw [hixsdef] at hix
    by_cases hc : hasKeyB cprops INDEXES = true ∧ isArr (getD cprops INDEXES) = true
    · rw [if_pos hc] at hix
      exact hixs ix hix
    · rw [if_neg hc] at hix
      simp at hix
  refine ⟨(dropIndexLoop_clean dbname colname ixs indis hpre).1, ?_, ?_⟩
  · intro y hy hne
    exact mem_eraseStr_of_ne hy hne
  · intro y hy hsy
    exact (dropIndexLoop_clean dbname colname ixs indis hpre).2 y hy hsy

/-- One matched local database contributes nothing; unprocessed shard names
and separator-carrying identities survive. -/
theorem localShardsLoop_clean (dbname : String) (shardMap : VValue) (serverId : String) :
    ∀ (shards : List (String × VValue)) (colis indis : List String),
      (localNamesOf shards).Nodup →
      (∀ sh ∈ shards, sh.1.front ≠ '_' →
        ¬(plannedLeaderOf shardMap sh.1 = UNDERSCORE ++ serverId ∧
          getStrD sh.2 LEADER = "") ∧
        sh.1 ∈ colis ∧
        (∀ ix ∈ arrElems (getD sh.2 INDEXES),
          (getStrD ix TYPE ≠ PRIMARY ∧ getStrD ix TYPE ≠ EDGE) →
          (sh.1 ++ "/" ++ getStrD ix ID) ∈ indis ∧ noSlash (getStrD ix ID) = true)) →
      (localShardsLoop dbname shardMap serverId shards colis indis).1 = [] ∧
      (∀ y ∈ colis, y ∉ localNamesOf shards →
        y ∈ (localShardsLoop dbname shardMap serverId shards colis indis).2.1) ∧
      (∀ y ∈ indis, hasSlash y = true →
        y ∈ (localShardsLoop dbname shardMap serverId shards colis indis).2.2) := by
  intro shards
  induction shards with
  | nil => intro colis indis _ _; exact ⟨rfl, fun y hy _ => hy, fun y hy _ => hy⟩
  | cons sh rest ih =>
    intro colis indis hnodup hpre
    obtain ⟨shName, col⟩ := sh
    by_cases hf : shName.front ≠ '_'
    · have hhead := hpre (shName, col) (List.mem_cons_self _ _) hf
      obtain ⟨hres, hcolis, hix⟩ := hhead
      have hnames : localNamesOf ((shName, col) :: rest) = shName :: localNamesOf rest := by
        simp [localNamesOf, List.filter_cons, hf]
      rw [hnames] at hnodup
      have hnotin : shName ∉ localNamesOf rest := (List.nodup_cons.1 hnodup).1
      have hnodup' : (localNamesOf rest).Nodup := (List.nodup_cons.1 hnodup).2
      have hclean := handleLocalShard_clean dbname shName col shardMap colis indis serverId
        hres hcolis hix
      obtain ⟨hact, hcol1, hind1⟩ := hclean
      have htail : ∀ sh2 ∈ rest, sh2.1.front ≠ '_' →
          ¬(plannedLeaderOf shardMap sh2.1 = UNDERSCORE ++ serverId ∧
            getStrD sh2.2 LEADER = "") ∧
          sh2.1 ∈ (handleLocalShard dbname shName col shardMap colis indis serverId).2.1 ∧
          (∀ ix ∈ arrElems (getD sh2.2 INDEXES),
            (getStrD ix TYPE ≠ PRIMARY ∧ getStrD ix TYPE ≠ EDGE) →
            (sh2.1 ++ "/" ++ getStrD ix ID) ∈
              (handleLocalShard dbname shName col shardMap colis indis serverId).2.2 ∧
            noSlash (getStrD ix ID) = true) := by
        intro sh2 hsh2 hf2
        obtain ⟨hres2, hcolis2, hix2⟩ := hpre sh2 (List.mem_cons_of_mem _ hsh2) hf2
        refine ⟨hres2, ?_, ?_⟩
        · apply hcol1 sh2.1 hcolis2
          intro he
          apply hnotin
          rw [← he]
          simp only [localNamesOf, List.mem_map]
          refine ⟨sh2, List.mem_filter.2 ⟨hsh2, by simpa using hf2⟩, rfl⟩
        · intro ix hix3 hty3
          obtain ⟨hm, hns⟩ := hix2 ix hix3 hty3
          exact ⟨hind1 _ hm (hasSlash_identity _ _), hns⟩
      have htl := ih
        (handleLocalShard dbname shName col shardMap colis indis serverId).2.1
        (handleLocalShard dbname shName col shardMap colis indis serverId).2.2
        hnodup' htail
      obtain ⟨hact2, hcol2, hind2⟩ := htl
      refine ⟨?_, ?_, ?_⟩
      · simp only [localShardsLoop, if_pos hf, hact, hact2, List.nil_append]
      · intro y hy hnin
        rw [hnames] at hnin
        simp only [List.mem_cons, not_or] at hnin
        simp only [localShardsLoop, if_pos hf]
        exact hcol2 y (hcol1 y hy hnin.1) hnin.2
      · intro y hy hsy
        simp only [localShardsLoop, if_pos hf]
        exact hind2 y (hind1 y hy hsy) hsy
    · have hnames : localNamesOf ((shName, col) :: rest) = localNamesOf rest := by
        simp [localNamesOf, List.filter_cons, hf]
      rw [hnames] at hnodup
      have htl := ih colis indis hnodup
        (fun sh2 hsh2 hf2 => hpre sh2 (List.mem_cons_of_mem _ hsh2) hf2)
      obtain ⟨hact2, hcol2, hind2⟩ := htl
      refine ⟨?_, ?_, ?_⟩
      · simp only [localShardsLoop, if_neg hf, hact2]
      · intro y hy hnin
        rw [hnames] at hnin
        simp only [localShardsLoop, if_neg hf]
        exact hcol2 y hy hnin
      · intro y hy hsy
        simp only [localShardsLoop, if_neg hf]
        exact hind2 y hy hsy

/-- The whole Local pass contributes nothing when every locally held
non-system shard is matched. -/
theorem localDbsLoop_clean (pdbs shardMap : VValue) (serverId : String) :
    ∀ (dbs : List (String × VValue)) (colis indis : List String),
      (dbs.flatMap (fun db => localNamesOf (objFields db.2))).Nodup →
      (∀ db ∈ dbs, hasKeyB pdbs db.1 = true →
        ∀ sh ∈ objFields db.2, sh.1.front ≠ '_' →
          ¬(plannedLeaderOf shardMap sh.1 = UNDERSCORE ++ serverId ∧
            getStrD sh.2 LEADER = "") ∧
          sh.1 ∈ colis ∧
          (∀ ix ∈ arrElems (getD sh.2 INDEXES),
            (getStrD ix TYPE ≠ PRIMARY ∧ getStrD ix TYPE ≠ EDGE) →
            (sh.1 ++ "/" ++ getStrD ix ID) ∈ indis ∧ noSlash (getStrD ix ID) = true)) →
      (localDbsLoop pdbs shardMap serverId dbs colis indis).1 = [] := by
  intro dbs
  induction dbs with
  | nil => intro colis indis _ _; rfl
  | cons db rest ih =>
    intro colis indis hnodup hpre
    obtain ⟨dbname, dbv⟩ := db
    rw [List.flatMap_cons, List.nodup_append] at hnodup
    obtain ⟨hn1, hn2, hdisj⟩ := hnodup
    by_cases hk : hasKeyB pdbs dbname = true
    · have hcl := localShardsLoop_clean dbname shardMap serverId (objFields dbv)
        colis indis hn1
        (fun sh hsh hf => hpre (dbname, dbv) (List.mem_cons_self _ _) hk sh hsh hf)
      obtain ⟨hact, hcol, hind⟩ := hcl
      have htail : ∀ db2 ∈ rest, hasKeyB pdbs db2.1 = true →
          ∀ sh ∈ objFields db2.2, sh.1.front ≠ '_' →
            ¬(plannedLeaderOf shardMap sh.1 = UNDERSCORE ++ serverId ∧
              getStrD sh.2 LEADER = "") ∧
            sh.1 ∈ (localShardsLoop dbname shardMap serverId (objFields dbv)
              colis indis).2.1 ∧
            (∀ ix ∈ arrElems (getD sh.2 INDEXES),
              (getStrD ix TYPE ≠ PRIMARY ∧ getStrD ix TYPE ≠ EDGE) →
              (sh.1 ++ "/" ++ getStrD ix ID) ∈ (localShardsLoop dbname shardMap serverId
                (objFields dbv) colis indis).2.2 ∧
              noSlash (getStrD ix ID) = true) := by
        intro db2 hdb2 hk2 sh hsh hf
        obtain ⟨hres2, hcolis2, hix2⟩ := hpre db2 (List.mem_cons_of_mem _ hdb2) hk2 sh hsh hf
        refine ⟨hres2, ?_, ?_⟩
        · apply hcol sh.1 hcolis2
          intro hin
          apply hdisj hin
          apply List.mem_flatMap.2
          refine ⟨db2, hdb2, ?_⟩
          simp only [localNamesOf, List.mem_map]
          exact ⟨sh, List.mem_filter.2 ⟨hsh, by simpa using hf⟩, rfl⟩
        · intro ix hix3 hty3
          obtain ⟨hm, hns⟩ := hix2 ix hix3 hty3
          exact ⟨hind _ hm (hasSlash_identity _ _), hns⟩
      have htl := ih
        (localShardsLoop dbname shardMap serverId (objFields dbv) colis indis).2.1
        (localShardsLoop dbname shardMap serverId (objFields dbv) colis indis).2.2
        hn2 htail
      simp only [localDbsLoop, if_pos hk, hact, htl, List.nil_append]
    · have htail : ∀ db2 ∈ rest, hasKeyB pdbs db2.1 = true →
          ∀ sh ∈ objFields db2.2, sh.1.front ≠ '_' →
            ¬(plannedLeaderOf shardMap sh.1 = UNDERSCORE ++ serverId ∧
              getStrD sh.2 LEADER = "") ∧
            sh.1 ∈ colis ∧
            (∀ ix ∈ arrElems (getD sh.2 INDEXES),
              (getStrD ix TYPE ≠ PRIMARY ∧ getStrD ix TYPE ≠ EDGE) →
              (sh.1 ++ "/" ++ getStrD ix ID) ∈ indis ∧ noSlash (getStrD ix ID) = true) :=
        fun db2 hdb2 hk2 sh hsh hf => hpre db2 (List.mem_cons_of_mem _ hdb2) hk2 sh hsh hf
      have htl := ih colis indis hn2 htail
      simp only [localDbsLoop, if_neg hk, htl]

/-! ### C5 — assembling the Plan = Local direction -/

theorem lookupF_isSome_of_mem {l : List (String × VValue)} {k : String} {v : VValue}
    (h : (k, v) ∈ l) : (lookupF l k).isSome = true := by
  induction l with
  | nil => simp at h
  | cons e rest ih =>
    obtain ⟨k', v'⟩ := e
    by_cases hk : k' = k
    · rw [lookupF, if_pos hk]; rfl
    · rw [lookupF, if_neg hk]
      rcases List.mem_cons.1 h with he | hrest
      · rw [Prod.mk.injEq] at he
        exact absurd he.1.symm hk
      · exact ih hrest

theorem count_one_of_nodup_mem {l : List String} {x : String}
    (hn : l.Nodup) (hm : x ∈ l) : l.count x = 1 := by
  have h1 : l.count x ≤ 1 := List.nodup_iff_count_le_one.1 hn x
  have h2 : 0 < l.count x := List.count_pos_iff_mem.2 hm
  omega

/-- System-named entries do not affect the key count of a non-system name. -/
theorem count_keys_eq_filtered {shName : String} (hf : shName.front ≠ '_') :
    ∀ fields : List (String × VValue),
      (fields.map Prod.fst).count shName = (localNamesOf fields).count shName := by
  intro fields
  induction fields with
  | nil => rfl
  | cons e rest ih =>
    obtain ⟨k, v⟩ := e
    by_cases hk : k.front ≠ '_'
    · have : localNamesOf ((k, v) :: rest) = k :: localNamesOf rest := by
        simp [localNamesOf, List.filter_cons, hk]
      rw [this, List.map_cons, List.count_cons, List.count_cons, ih]
    · have hkv : k ≠ shName := by
        intro he
        rw [he] at hk
        exact hk hf
      have : localNamesOf ((k, v) :: rest) = localNamesOf rest := by
        simp [localNamesOf, List.filter_cons, hk]
      rw [this, List.map_cons, List.count_cons, ih]
      simp [hkv]

theorem nodup_of_mem_flatMap {α : Type} {l : List α} {f : α → List String}
    (hn : (l.flatMap f).Nodup) {x : α} (hx : x ∈ l) : (f x).Nodup := by
  induction l with
  | nil => simp at hx
  | cons a rest ih =>
    rw [List.flatMap_cons, List.nodup_append] at hn
    rcases List.mem_cons.1 hx with he | hrest
    · subst he; exact hn.1
    · exact ih hn.2.1 hrest

/-- "Local exactly reflects Plan": every planned database exists locally and
vice versa, every planned shard assigned to this node is matched by its
local counterpart (4.2-compared properties, leadership flag, index array),
every locally held non-system shard is planned here, the shard names and
local database keys are duplicate-free, and index documents are well formed
(self-normal field values, separator-free ids, recorded inside
`shardMatchesLocally`). -/
def localReflectsPlan (plan local_ : VValue) (serverId : String) : Bool :=
  (objFields (getD plan "Databases")).all (fun pdb => hasKeyB local_ pdb.1) &&
  (objFields local_).all (fun ldb => hasPath plan ["Databases", ldb.1]) &&
  (objFields (getD plan COLLECTIONS)).all (fun pdb => hasKeyB local_ pdb.1) &&
  (objFields (getD plan COLLECTIONS)).all (fun pdb =>
    (objFields pdb.2).all (fun pcol =>
      (objFields (getD pcol.2 SHARDS)).all (fun sh =>
        ((arrElems sh.2).all (fun v => !(asStr v == serverId))) ||
        shardMatchesLocally (getD local_ pdb.1) pcol.2 sh.1 serverId sh.2))) &&
  (objFields local_).all (fun ldb =>
    (objFields ldb.2).all (fun sh =>
      (sh.1.front == '_') ||
      localShardPlanned (getD plan COLLECTIONS) serverId ldb.1 sh.1)) &&
  decide (planShardNames (getD plan COLLECTIONS)).Nodup &&
  decide ((objFields local_).map Prod.fst).Nodup &&
  decide (localShardNames local_).Nodup

/-- C5, Plan = Local direction: when Local exactly reflects Plan,
`diffPlanLocal` produces an empty action list. -/
theorem diffPlanLocal_matched_nil (plan local_ : VValue) (serverId : String)
    (h : localReflectsPlan plan local_ serverId = true) :
    diffPlanLocal plan local_ serverId = [] := by
  rw [localReflectsPlan] at h
  simp only [Bool.and_eq_true, decide_eq_true_eq] at h
  obtain ⟨⟨⟨⟨⟨⟨⟨ha, hb⟩, hc⟩, hd⟩, he⟩, hfp⟩, hfl⟩, hfs⟩ := h
  rw [List.all_eq_true] at ha hb hc hd he
  -- the four passes of diffPlanLocal
  have h1 : (objFields (getD plan "Databases")).filterMap (fun pdb =>
      if ¬hasKeyB local_ pdb.1 then some (createDatabaseAction pdb.1) else none) = [] := by
    rw [List.filterMap_eq_nil]
    intro pdb hpdb
    rw [if_neg]
    exact not_not_intro (ha pdb hpdb)
  have h2 : (objFields local_).filterMap (fun ldb =>
      if ¬hasPath plan ["Databases", ldb.1] then some (dropDatabaseAction ldb.1) else none)
        = [] := by
    rw [List.filterMap_eq_nil]
    intro ldb hldb
    rw [if_neg]
    exact not_not_intro (hb ldb hldb)
  have hmatch : ∀ db ∈ objFields (getD plan COLLECTIONS), ∀ col ∈ objFields db.2,
      ∀ sh ∈ objFields (getD col.2 SHARDS), ∀ v ∈ arrElems sh.2, asStr v = serverId →
      shardMatchesLocally (getD local_ db.1) col.2 sh.1 serverId sh.2 = true := by
    intro db hdb col hcol sh hsh v hv hvs
    have hor := hd db hdb
    rw [List.all_eq_true] at hor
    have hor2 := hor col hcol
    rw [List.all_eq_true] at hor2
    have hor3 := hor2 sh hsh
    rcases Bool.or_eq_true_iff.1 hor3 with hall | hm
    · exfalso
      rw [List.all_eq_true] at hall
      have := hall v hv
      simp [hvs] at this
    · exact hm
  have h3 : (planDbsLoop local_ serverId (objFields (getD plan COLLECTIONS)) [] []).1
      = [] :=
    planDbsLoop_actions_nil local_ serverId (objFields (getD plan COLLECTIONS)) [] []
      (fun db hdb => hc db hdb) hmatch
  -- the Local pass: membership facts for every locally held non-system shard
  set pcols := getD plan COLLECTIONS with hpcols
  set colisF := (planDbsLoop local_ serverId (objFields pcols) [] []).2.1 with hcolisF
  set indisF := (planDbsLoop local_ serverId (objFields pcols) [] []).2.2 with hindisF
  have h4 : (localDbsLoop pcols (getShardMap pcols) serverId (objFields local_)
      colisF indisF).1 = [] := by
    apply localDbsLoop_clean
    · exact hfs
    · intro db hdb hk sh hsh hf
      obtain ⟨dbname, dbv⟩ := db
      obtain ⟨shName, col⟩ := sh
      simp only at hk hf ⊢
      -- this shard is planned here
      have hep := he (dbname, dbv) hdb
      rw [List.all_eq_true] at hep
      have hep2 := hep (shName, col) hsh
      have hplanned : localShardPlanned pcols serverId dbname shName = true := by
        rcases Bool.or_eq_true_iff.1 hep2 with hsys | hpl
        · exfalso
          exact hf (beq_iff_eq.mp hsys)
        · exact hpl
      rw [localShardPlanned] at hplanned
      cases hgp : getKey pcols dbname with
      | none => rw [hgp] at hplanned; exact absurd hplanned (by simp)
      | some pdbv =>
      rw [hgp] at hplanned
      simp only [List.any_eq_true] at hplanned
      obtain ⟨pcol, hpcolmem, hpsh⟩ := hplanned
      cases hgs : getKey (getD pcol.2 SHARDS) shName with
      | none => rw [hgs] at hpsh; exact absurd hpsh (by simp)
      | some servers =>
      rw [hgs] at hpsh
      simp only [List.any_eq_true] at hpsh
      obtain ⟨v, hvmem, hveq⟩ := hpsh
      have hvs : asStr v = serverId := beq_iff_eq.mp hveq
      -- memberships of the planned occurrences
      have hdbmem : (dbname, pdbv) ∈ objFields pcols :=
        lookupF_mem (by rw [← getKey_eq_lookupF]; exact hgp)
      have hshmem : (shName, servers) ∈ objFields (getD pcol.2 SHARDS) :=
        lookupF_mem (by rw [← getKey_eq_lookupF]; exact hgs)
      -- the matching hypothesis for this shard
      have hm := hmatch (dbname, pdbv) hdbmem pcol hpcolmem (shName, servers) hshmem
        v hvmem hvs
      -- identify the iterated local entries with the looked-up ones
      have hdbv : getD local_ dbname = dbv := by
        have hcnt : ((objFields local_).map Prod.fst).count dbname = 1 :=
          count_one_of_nodup_mem hfl (List.mem_map_of_mem Prod.fst hdb)
        have := lookupF_eq_of_count_one hdb hcnt
        rw [show getD local_ dbname = (lookupF (objFields local_) dbname).getD .vnull from
          by rw [← getKey_eq_lookupF]; rfl, this]
        rfl
      have hcolkey : getKey dbv shName = some col := by
        have hnod : (localNamesOf (objFields dbv)).Nodup :=
          nodup_of_mem_flatMap hfs hdb
        have hmemn : shName ∈ localNamesOf (objFields dbv) := by
          simp only [localNamesOf, List.mem_map]
          exact ⟨(shName, col), List.mem_filter.2 ⟨hsh, by simpa using hf⟩, rfl⟩
        have hcnt : ((objFields dbv).map Prod.fst).count shName = 1 := by
          rw [count_keys_eq_filtered hf]
          exact count_one_of_nodup_mem hnod hmemn
        rw [getKey_eq_lookupF]
        exact lookupF_eq_of_count_one hsh hcnt
      -- unpack shardMatchesLocally at the identified local collection
      rw [shardMatchesLocally, hdbv, hcolkey] at hm
      simp only [Bool.and_eq_true, List.all_eq_true, decide_eq_true_eq] at hm
      obtain ⟨⟨⟨⟨hprops, hlead⟩, hidx⟩, hself⟩, hnosl⟩ := hm
      -- the planned leader of this shard, via the shard map
      have hsmkey : getKey (getShardMap pcols) shName = some servers := by
        have hsmmem : (shName, servers) ∈ shardMapList pcols := by
          apply List.mem_flatMap.2
          refine ⟨(dbname, pdbv), hdbmem, ?_⟩
          apply List.mem_flatMap.2
          exact ⟨pcol, hpcolmem, hshmem⟩
        have hcnt : (planShardNames pcols).count shName = 1 :=
          count_one_of_nodup_mem hfp (List.mem_map_of_mem Prod.fst hsmmem)
        rw [show getShardMap pcols = .vobj (shardMapList pcols) from rfl,
          getKey]
        exact lookupF_eq_of_count_one hsmmem hcnt
      have hsmD : getD (getShardMap pcols) shName = servers := by
        rw [show getD (getShardMap pcols) shName
          = (getKey (getShardMap pcols) shName).getD .vnull from rfl, hsmkey]
        rfl
      have hplv : plannedLeaderOf (getShardMap pcols) shName = asStr (firstElemD servers) := by
        rw [plannedLeaderOf, if_pos, hsmD]
        constructor
        · simp [hasKeyB, hsmkey]
        · rw [hsmD]
          exact isArr_of_mem_arrElems hvmem
      refine ⟨?_, ?_, ?_⟩
      · -- no resignation
        intro hcontr
        obtain ⟨hpl, hll⟩ := hcontr
        have hbt : (getStrD col LEADER == "") = true := beq_iff_eq.mpr hll
        have hb := eq_of_beq hlead
        rw [hbt] at hb
        have hfirst : asStr (firstElemD servers) = serverId := beq_iff_eq.mp hb.symm
        rw [hplv, hfirst] at hpl
        exact underscore_append_ne serverId hpl.symm
      · -- the shard name was recorded during the Plan pass
        apply planDbsLoop_colis_insert local_ serverId dbname pcol.1 shName pdbv pcol.2
          servers (objFields pcols) [] [] hdbmem
          (by rw [hdbv] at *; simp [hasKeyB, getKey_eq_lookupF]
              exact lookupF_isSome_of_mem hdb)
          (by exact hpcolmem) hshmem ⟨v, hvmem, hvs⟩
      · -- every local index identity was recorded during the Plan pass
        intro ix hix hty
        have hixsame : arrElems (getD col INDEXES) = arrElems (getD pcol.2 INDEXES) := by
          have : getD col INDEXES = getD pcol.2 INDEXES := by
            rw [show getD col INDEXES = (getKey col INDEXES).getD .vnull from rfl, hidx]
            rfl
          rw [this]
        rw [hixsame] at hix
        refine ⟨?_, hnosl ix hix⟩
        apply planDbsLoop_indis_insert local_ serverId dbname pcol.1 shName pdbv pcol.2
          servers (objFields pcols) [] [] ix hdbmem
          (by rw [hdbv] at *; simp [hasKeyB, getKey_eq_lookupF]
              exact lookupF_isSome_of_mem hdb)
          hpcolmem hshmem ⟨v, hvmem, hvs⟩
          (by rw [hdbv]; simp [hasKeyB, hcolkey])
          hix
          (by intro hcontr; rcases hcontr with hcontr | hcontr
              · exact hty.1 hcontr
              · exact hty.2 hcontr)
  simp only [diffPlanLocal, h1, h2, h3, h4, List.nil_append, List.append_nil]

/-! ### C5 — the Current-report direction -/

/-- Is this locally held shard already faithfully reported in Current?
Leader shards: the snapshot is empty (unresolvable) or Current holds an
equivalent entry; follower shards: Current's server list does not still
name this node first. -/
def shardReportClean (eng : StorageEngine) (cur : VValue)
    (dbName serverId shName : String) (sv : VValue) : Bool :=
  if getStrD sv LEADER = "" then
    isEmptyObj (assembleLocalCollectioInfo eng sv dbName shName serverId) ||
    (hasPath cur [COLLECTIONS, dbName, getStrD sv PLAN_ID, shName] &&
     equivalent (assembleLocalCollectioInfo eng sv dbName shName serverId)
       (getPathD cur [COLLECTIONS, dbName, getStrD sv PLAN_ID, shName]))
  else
    match getPath cur [COLLECTIONS, dbName, getStrD sv PLAN_ID, shName, SERVERS] with
    | some s => !decide (isArr s ∧ asStr (firstElemD s) = serverId)
    | none => true

/-- Does this Current shard entry escape the backward retraction? -/
def backwardShardClean (local_ shardMap : VValue) (serverId dbName shName : String)
    (shVal : VValue) : Bool :=
  match getKey shVal SERVERS with
  | some servers =>
    !decide (isArr servers ∧ (arrElems servers).length > 0 ∧
      asStr (firstElemD servers) = serverId ∧
      ¬hasPath local_ [dbName, shName] ∧ ¬hasKeyB shardMap shName)
  | none => true

/-- "Current already reflects Local": every locally held database is
registered under Current's databases for this node, every non-system local
shard is cleanly reported, every Current collections database is still
known locally or in Plan, and no Current shard entry triggers the
backward retraction. -/
def localCurrentEquiv (eng : StorageEngine) (plan cur local_ : VValue)
    (serverId : String) : Bool :=
  (objFields local_).all (fun ldb =>
    hasPath cur ["Databases", ldb.1, serverId] &&
    (objFields ldb.2).all (fun sh =>
      (sh.1.front == '_') || shardReportClean eng cur ldb.1 serverId sh.1 sh.2)) &&
  (objFields (getD cur COLLECTIONS)).all (fun cdb =>
    (hasKeyB local_ cdb.1 || hasKeyB (getD plan COLLECTIONS) cdb.1) &&
    (objFields cdb.2).all (fun col =>
      (objFields col.2).all (fun sh =>
        backwardShardClean local_ (getShardMap (getD plan COLLECTIONS))
          serverId cdb.1 sh.1 sh.2)))

theorem reportShardInCurrent_nil (eng : StorageEngine) (cur : VValue)
    (dbName serverId shName : String) (sv : VValue)
    (h : shardReportClean eng cur dbName serverId shName sv = true) :
    reportShardInCurrent eng cur dbName serverId shName sv = [] := by
  rw [shardReportClean] at h
  simp only [reportShardInCurrent]
  by_cases hl : getStrD sv LEADER = ""
  · rw [if_pos hl] at h ⊢
    by_cases he : isEmptyObj (assembleLocalCollectioInfo eng sv dbName shName serverId) = true
    · rw [if_pos he]
    · rw [if_neg he]
      rw [Bool.or_eq_true_iff] at h
      rcases h with h | h
      · exact absurd h he
      rw [Bool.and_eq_true] at h
      obtain ⟨hp, heq⟩ := h
      rw [if_neg]
      push_neg
      exact ⟨hp, fun _ => heq⟩
  · rw [if_neg hl] at h ⊢
    cases hg : getPath cur [COLLECTIONS, dbName, getStrD sv PLAN_ID, shName, SERVERS] with
    | none => rfl
    | some s =>
      rw [hg] at h
      simp only [Bool.not_eq_true', decide_eq_false_iff_not] at h
      exact if_neg h

theorem backwardShard_clean_nil (local_ shardMap : VValue)
    (serverId dbName colName shName : String) (shVal : VValue)
    (h : backwardShardClean local_ shardMap serverId dbName shName shVal = true) :
    backwardShard local_ shardMap serverId dbName colName shName shVal = [] := by
  rw [backwardShardClean] at h
  rw [backwardShard]
  cases hg : getKey shVal SERVERS with
  | none => rfl
  | some servers =>
    rw [hg] at h
    simp only [Bool.not_eq_true', decide_eq_false_iff_not] at h
    exact if_neg h

/-- C5, Current direction: when Current already reflects Local,
`reportInCurrent` writes nothing. -/
theorem reportInCurrent_clean_nil (eng : StorageEngine) (plan cur local_ : VValue)
    (serverId : String) (h : localCurrentEquiv eng plan cur local_ serverId = true) :
    reportInCurrent eng plan cur local_ serverId = [] := by
  rw [localCurrentEquiv] at h
  simp only [Bool.and_eq_true, List.all_eq_true] at h
  obtain ⟨hf, hb⟩ := h
  have hfwd : (objFields local_).flatMap (fun database =>
      reportLocalDb eng cur serverId database.1 database.2) = [] := by
    rw [List.flatMap_eq_nil_iff]
    intro db hdb
    obtain ⟨hpath, hshards⟩ := hf db hdb
    rw [reportLocalDb]
    have hde : reportDatabaseEntry eng cur serverId db.1 = [] := by
      rw [reportDatabaseEntry, if_neg (not_not_intro hpath)]
    have hsh : (objFields db.2).flatMap (fun shard =>
        if shard.1.front = '_' then []
        else reportShardInCurrent eng cur db.1 serverId shard.1 shard.2) = [] := by
      rw [List.flatMap_eq_nil_iff]
      intro sh hsh
      by_cases hfr : sh.1.front = '_'
      · rw [if_pos hfr]
      · rw [if_neg hfr]
        have := hshards sh hsh
        rcases Bool.or_eq_true_iff.1 this with hsys | hcl
        · exact absurd (beq_iff_eq.mp hsys) hfr
        · exact reportShardInCurrent_nil eng cur db.1 serverId sh.1 sh.2 hcl
    rw [hde, hsh]
    rfl
  have hbwd : (objFields (getD cur COLLECTIONS)).flatMap (fun database =>
      backwardDb plan local_ (getShardMap (getD plan COLLECTIONS)) serverId
        database.1 database.2) = [] := by
    rw [List.flatMap_eq_nil_iff]
    intro cdb hcdb
    obtain ⟨hkeys, hshards⟩ := hb cdb hcdb
    rw [backwardDb, if_neg]
    · rw [List.flatMap_eq_nil_iff]
      intro col hcol
      rw [List.flatMap_eq_nil_iff]
      intro sh hsh
      exact backwardShard_clean_nil local_ (getShardMap (getD plan COLLECTIONS))
        serverId cdb.1 col.1 sh.1 sh.2 (hshards col hcol sh hsh)
    · intro hcontr
      obtain ⟨hn1, hn2⟩ := hcontr
      rcases Bool.or_eq_true_iff.1 hkeys with hk | hk
      · exact hn1 hk
      · exact hn2 hk
  simp only [reportInCurrent, hfwd, hbwd, List.append_nil]

/-! ### C5 — fixtures for the idempotence witness -/

/-- Plan with one database `d`, one collection `c1`, one shard `s1` led by
this node `A` with follower `B`, and one hash index. -/
def idemPlan : VValue :=
  .vobj [("Databases", .vobj [("d", .vobj [])]),
         (COLLECTIONS, .vobj [("d", .vobj [
            ("c1", .vobj [
               ("journalSize", .vnum 1024),
               (SHARDS, .vobj [("s1", .varr [.vstr "A", .vstr "B"])]),
               (INDEXES, .varr [hashIdx "1" ["x"]])])])])]

/-- Local state exactly reflecting `idemPlan` on node `A`. -/
def idemLocal : VValue :=
  .vobj [("d", .vobj [("s1", .vobj [
     (PLAN_ID, .vstr "c1"),
     ("journalSize", .vnum 1024),
     (LEADER, .vstr ""),
     (INDEXES, .varr [hashIdx "1" ["x"]])])])]

/-- The Current shard snapshot `assembleLocalCollectioInfo` would produce
for `s1` on `idemEng`. -/
def idemInfo : VValue :=
  .vobj [(ERROR, .vbool false), (ERROR_MESSAGE, .vstr ""), (ERROR_NUM, .vnum 0),
         (INDEXES, .varr [hashIdx "1" ["x"]]), (SERVERS, .varr [.vstr "A", .vstr "B"])]

/-- Current state already carrying the database registration and the
equivalent `s1` snapshot. -/
def idemCur : VValue :=
  .vobj [("Databases", .vobj [("d", .vobj [("A", .vobj [])])]),
         (COLLECTIONS, .vobj [("d", .vobj [("c1", .vobj [("s1", idemInfo)])])])]

/-- A storage collaborator resolving database `d` and shard `s1` with
follower `B`. -/
def idemEng : StorageEngine :=
  ⟨fun d => if d = "d" then some (1, "d") else none,
   fun d s => if d = "d" ∧ s = "s1" then some ["B"] else none⟩

/-- C5: idempotence of both reconciliation directions.  When Local exactly
reflects Plan — every planned database and every planned shard assigned to
this node exists locally with equal relevant properties, matching
leadership and a matching index set, nothing extra exists locally, and the
shard/database names are duplicate-free with well-formed index ids —
`diffPlanLocal` produces an empty action list; and when every locally held
database and shard snapshot is already equivalently recorded in Current
and nothing in Current triggers the backward retraction, `reportInCurrent`
emits zero set/delete report operations. -/
theorem diffPlanLocal_reportInCurrent_idempotent
    (eng : StorageEngine) (plan cur local_ : VValue) (serverId : String)
    (h1 : localReflectsPlan plan local_ serverId = true)
    (h2 : localCurrentEquiv eng plan cur local_ serverId = true) :
    diffPlanLocal plan local_ serverId = [] ∧
    reportInCurrent eng plan cur local_ serverId = [] :=
  ⟨diffPlanLocal_matched_nil plan local_ serverId h1,
   reportInCurrent_clean_nil eng plan cur local_ serverId h2⟩

theorem diffPlanLocal_reportInCurrent_idempotent_witness :
    diffPlanLocal idemPlan idemLocal "A" = [] ∧
    reportInCurrent idemEng idemPlan idemCur idemLocal "A" = [] :=
  diffPlanLocal_reportInCurrent_idempotent idemEng idemPlan idemCur idemLocal "A"
    (by decide) (by decide)
